import Mathlib

/-!
Verification development for `src/main/content/mods/delta-baking.service.ts`
(class `DeltaBakingService`) of the bar-lobby repository.

The service is a content-addressed overlay-composition cache: it bakes a base
game directory together with an ordered list of mod overlay directories into a
single cached artifact, keyed by a truncated SHA-256 fingerprint of the
combination.

Embedding conventions:
* JavaScript strings are modelled as Lean `String` / `List Char`; the string
  operations used by the service (`toLowerCase`, `includes`, `startsWith`,
  `endsWith`, `substring`, template literals) are given explicit, executable
  definitions over character lists which agree with their ECMAScript meaning
  on the inputs involved.
* The filesystem is modelled as a finite tree (`FSNode` / `FSEntries`); paths
  are segment lists.  Each `fs.*` primitive used by the service becomes an
  explicit, executable state-passing function; fallible primitives return
  `Except String`.
* `createHash("sha256").update(content).digest("hex").substring(0, 16)` is
  abstracted as a `digest : List Char → String` parameter applied to the exact
  serialized content the source builds; per the specification, the truncated
  digest is treated as collision-free, i.e. theorems that need it take an
  injectivity hypothesis on `digest`, and the serialized content itself is
  modelled byte-exactly (including ECMAScript JSON string escaping).
-/

namespace DeltaBaking

/-! ### ECMAScript string operations on character lists -/

set_option maxRecDepth 10000 in
/-- `sub.isPrefixOf`-based containment: JavaScript `String.prototype.includes`
on the underlying character sequences. -/
def listContainsSeq (sub : List Char) : List Char → Bool
  | [] => sub.isEmpty
  | l@(_ :: t) => sub.isPrefixOf l || listContainsSeq sub t

/-- JavaScript `s.includes(sub)`. -/
def jsIncludes (s sub : String) : Bool :=
  listContainsSeq sub.data s.data

/-- JavaScript `s.toLowerCase()` (agrees on the ASCII names involved). -/
def jsLower (s : String) : String :=
  String.mk (s.data.map Char.toLower)

/-- JavaScript `s.startsWith(pre)`. -/
def jsStartsWith (s pre : String) : Bool :=
  pre.data.isPrefixOf s.data

/-- JavaScript `s.endsWith(suf)`. -/
def jsEndsWith (s suf : String) : Bool :=
  suf.data.isSuffixOf s.data

/-- JavaScript `s.split(sep)` for a single-character separator, on character
lists. -/
def splitChars (sep : Char) : List Char → List (List Char)
  | [] => [[]]
  | c :: t =>
    if c = sep then [] :: splitChars sep t
    else
      match splitChars sep t with
      | h :: r => (c :: h) :: r
      | [] => [[c]]

/-- Interpret a path string (as stored in `ModMetadata.installPath`) as a
segment list, splitting on `/`. -/
def pathSegs (s : String) : List String :=
  (splitChars '/' s.data).map String.mk

/-! ### Mod metadata

Modelled from the spec: the file `mod-types.ts` defining `ModMetadata` is not
part of the provided sources.  The spec's `OverlayRef` is "a stable short
name, a version string, and a filesystem path to its content root"; in
addition the service reads a display name (`mod.name`, used for logging and
for the synthesized manifest, the spec's "composite display name").  We model
exactly the fields `delta-baking.service.ts` reads: `name`, `shortname`,
`version`, `installPath`. -/
structure ModMetadata where
  name : String
  shortname : String
  version : String
  installPath : String
deriving DecidableEq

/-- Options record of `bakeGame` (interface `DeltaBakingOptions`). -/
structure DeltaBakingOptions where
  baseGameType : String
  mods : List ModMetadata
  engineVersion : String

/-! ### Combination fingerprint (`generateCombinationHash`)

The source builds
`JSON.stringify({ baseGameType, engineVersion, mods: mods.map(mod => ({ shortname, version, installPath })) })`
and hashes it.  We reproduce the `JSON.stringify` output byte-exactly
(ECMAScript `QuoteJSONString` escaping, insertion-ordered keys). -/

/-- Lowercase hexadecimal digit, as produced by ECMAScript `\u00XX` escapes. -/
def toHexDigit (n : Nat) : Char :=
  if n < 10 then Char.ofNat (48 + n) else Char.ofNat (87 + n)

/-- ECMAScript `QuoteJSONString` escaping of one character. -/
def escChar (c : Char) : List Char :=
  if c = '"' then ['\\', '"']
  else if c = '\\' then ['\\', '\\']
  else if c = '\x08' then ['\\', 'b']
  else if c = '\x0c' then ['\\', 'f']
  else if c = '\n' then ['\\', 'n']
  else if c = '\r' then ['\\', 'r']
  else if c = '\t' then ['\\', 't']
  else if c.toNat < 32 then
    ['\\', 'u', '0', '0', toHexDigit (c.toNat / 16), toHexDigit (c.toNat % 16)]
  else [c]

/-- Characters of a string literal. -/
def lit (s : String) : List Char := s.data

/-- `JSON.stringify` of a string value: quoted, escaped. -/
def jsonStr (s : String) : List Char :=
  '"' :: s.data.flatMap escChar ++ ['"']

/-- `JSON.stringify` of one element of the `mods` array:
`{"shortname":…,"version":…,"installPath":…}`. -/
def serMod (m : ModMetadata) : List Char :=
  lit "\x7b\"shortname\":" ++ jsonStr m.shortname ++
  lit ",\"version\":" ++ jsonStr m.version ++
  lit ",\"installPath\":" ++ jsonStr m.installPath ++ lit "\x7d"

/-- Continuation of the serialized `mods` array after its first element. -/
def serModsRest : List ModMetadata → List Char
  | [] => []
  | m :: r => ',' :: serMod m ++ serModsRest r

/-- `JSON.stringify` of the `mods` array. -/
def serMods : List ModMetadata → List Char
  | [] => lit "[]"
  | m :: r => '[' :: serMod m ++ serModsRest r ++ [']']

/-- The exact `content` string `generateCombinationHash` feeds to the hash. -/
def combinationContent (baseGameType : String) (mods : List ModMetadata)
    (engineVersion : String) : List Char :=
  lit "\x7b\"baseGameType\":" ++ jsonStr baseGameType ++
  lit ",\"engineVersion\":" ++ jsonStr engineVersion ++
  lit ",\"mods\":" ++ serMods mods ++ lit "\x7d"

/-- `generateCombinationHash`, with the SHA-256/hex/truncate-to-16 step
abstracted as `digest` (treated as collision-free per the spec). -/
def generateCombinationHash (digest : List Char → String)
    (baseGameType : String) (mods : List ModMetadata)
    (engineVersion : String) : String :=
  digest (combinationContent baseGameType mods engineVersion)

/-- The three fields of a mod that enter the fingerprint serialization. -/
def projMod (m : ModMetadata) : String × String × String :=
  (m.shortname, m.version, m.installPath)

/-- An injective stand-in digest (used to instantiate witnesses): the content
itself, as a string. -/
def strDigest (l : List Char) : String := String.mk l

/-! ### A parser for the serialized combination, used to prove the
serialization injective (verification infrastructure, not part of the
embedded program). -/

/-- Value of a lowercase hexadecimal digit. -/
def hexVal (c : Char) : Option Nat :=
  if '0' ≤ c ∧ c ≤ '9' then some (c.toNat - 48)
  else if 'a' ≤ c ∧ c ≤ 'f' then some (c.toNat - 87)
  else none

/-- Parse the body of a JSON string literal (everything after the opening
quote), undoing `escChar`; returns the decoded characters and the input
remaining after the closing quote. -/
def parseJStr : List Char → Option (List Char × List Char)
  | [] => none
  | c :: r =>
    if c = '"' then some ([], r)
    else if c = '\\' then
      match r with
      | [] => none
      | e :: r2 =>
        if e = '"' then (parseJStr r2).map (fun p => ('"' :: p.1, p.2))
        else if e = '\\' then (parseJStr r2).map (fun p => ('\\' :: p.1, p.2))
        else if e = 'b' then (parseJStr r2).map (fun p => ('\x08' :: p.1, p.2))
        else if e = 'f' then (parseJStr r2).map (fun p => ('\x0c' :: p.1, p.2))
        else if e = 'n' then (parseJStr r2).map (fun p => ('\n' :: p.1, p.2))
        else if e = 'r' then (parseJStr r2).map (fun p => ('\r' :: p.1, p.2))
        else if e = 't' then (parseJStr r2).map (fun p => ('\t' :: p.1, p.2))
        else if e = 'u' then
          match r2 with
          | h1 :: h2 :: h3 :: h4 :: r3 =>
            match hexVal h1, hexVal h2, hexVal h3, hexVal h4 with
            | some a, some b, some c2, some d =>
              (parseJStr r3).map
                (fun p => (Char.ofNat (((a * 16 + b) * 16 + c2) * 16 + d) :: p.1, p.2))
            | _, _, _, _ => none
          | _ => none
        else none
    else (parseJStr r).map (fun p => (c :: p.1, p.2))

/-- Strip an expected literal prefix. -/
def stripLit : List Char → List Char → Option (List Char)
  | [], l => some l
  | _ :: _, [] => none
  | c :: p, x :: l => if x = c then stripLit p l else none

/-- Parse a quoted JSON string value. -/
def parseQ : List Char → Option (List Char × List Char)
  | '"' :: r => parseJStr r
  | _ => none

/-- Parse one serialized mod entry. -/
def parseModF (l : List Char) : Option ((String × String × String) × List Char) := do
  let l1 ← stripLit (lit "\x7b\"shortname\":") l
  let (s, l2) ← parseQ l1
  let l3 ← stripLit (lit ",\"version\":") l2
  let (v, l4) ← parseQ l3
  let l5 ← stripLit (lit ",\"installPath\":") l4
  let (p, l6) ← parseQ l5
  let l7 ← stripLit (lit "\x7d") l6
  some ((String.mk s, String.mk v, String.mk p), l7)

/-- Parse the fixed head of the serialized combination, returning the base
type, the engine version, and the rest (the mods array onward). -/
def parseContentPre (l : List Char) : Option (String × String × List Char) := do
  let l1 ← stripLit (lit "\x7b\"baseGameType\":") l
  let (b, l2) ← parseQ l1
  let l3 ← stripLit (lit ",\"engineVersion\":") l2
  let (ev, l4) ← parseQ l3
  let l5 ← stripLit (lit ",\"mods\":") l4
  some (String.mk b, String.mk ev, l5)

theorem hexVal_toHexDigit (k : Nat) (h : k < 16) : hexVal (toHexDigit k) = some k := by
  interval_cases k <;> decide

theorem parseJStr_roundtrip (l rest : List Char) :
    parseJStr (l.flatMap escChar ++ '"' :: rest) = some (l, rest) := by
  induction l with
  | nil =>
    rw [List.flatMap_nil, List.nil_append, parseJStr.eq_def]
    simp
  | cons c t ih =>
    by_cases h1 : c = '"'
    · subst h1
      simp +decide only [List.flatMap_cons, escChar, List.cons_append, List.append_assoc]
      rw [parseJStr.eq_def]
      simp +decide [ih]
    by_cases h2 : c = '\\'
    · subst h2
      simp +decide only [List.flatMap_cons, escChar, List.cons_append, List.append_assoc]
      rw [parseJStr.eq_def]
      simp +decide [ih]
    by_cases h3 : c = '\x08'
    · subst h3
      simp +decide only [List.flatMap_cons, escChar, List.cons_append, List.append_assoc]
      rw [parseJStr.eq_def]
      simp +decide [ih]
    by_cases h4 : c = '\x0c'
    · subst h4
      simp +decide only [List.flatMap_cons, escChar, List.cons_append, List.append_assoc]
      rw [parseJStr.eq_def]
      simp +decide [ih]
    by_cases h5 : c = '\n'
    · subst h5
      simp +decide only [List.flatMap_cons, escChar, List.cons_append, List.append_assoc]
      rw [parseJStr.eq_def]
      simp +decide [ih]
    by_cases h6 : c = '\r'
    · subst h6
      simp +decide only [List.flatMap_cons, escChar, List.cons_append, List.append_assoc]
      rw [parseJStr.eq_def]
      simp +decide [ih]
    by_cases h7 : c = '\t'
    · subst h7
      simp +decide only [List.flatMap_cons, escChar, List.cons_append, List.append_assoc]
      rw [parseJStr.eq_def]
      simp +decide [ih]
    by_cases h8 : c.toNat < 32
    · have e1 : escChar c =
          ['\\', 'u', '0', '0', toHexDigit (c.toNat / 16), toHexDigit (c.toNat % 16)] := by
        simp [escChar, h1, h2, h3, h4, h5, h6, h7, h8]
      have hdiv : c.toNat / 16 < 16 := by omega
      have hmod : c.toNat % 16 < 16 := by omega
      have harith : ((0 * 16 + 0) * 16 + c.toNat / 16) * 16 + c.toNat % 16 = c.toNat := by
        omega
      simp only [List.flatMap_cons, e1, List.append_assoc, List.cons_append,
        List.nil_append]
      rw [parseJStr.eq_def]
      have hchar : Char.ofNat (c.toNat / 16 * 16 + c.toNat % 16) = c := by
        rw [show c.toNat / 16 * 16 + c.toNat % 16 = c.toNat from by omega, Char.ofNat_toNat]
      have h0 : hexVal '0' = some 0 := by decide
      simp +decide [h0, hexVal_toHexDigit _ hdiv, hexVal_toHexDigit _ hmod, ih, hchar]
    · have e1 : escChar c = [c] := by
        simp [escChar, h1, h2, h3, h4, h5, h6, h7, h8]
      simp only [List.flatMap_cons, e1, List.cons_append, List.nil_append]
      rw [parseJStr.eq_def]
      simp [h1, h2, ih]

theorem stripLit_append (p l : List Char) : stripLit p (p ++ l) = some l := by
  induction p with
  | nil => rfl
  | cons c t ih => simp [stripLit, ih]

theorem parseQ_roundtrip (s : String) (rest : List Char) :
    parseQ (jsonStr s ++ rest) = some (s.data, rest) := by
  have h : jsonStr s ++ rest = '"' :: (s.data.flatMap escChar ++ '"' :: rest) := by
    simp [jsonStr]
  rw [h]
  show parseJStr (s.data.flatMap escChar ++ '"' :: rest) = some (s.data, rest)
  exact parseJStr_roundtrip s.data rest

theorem parseModF_roundtrip (m : ModMetadata) (rest : List Char) :
    parseModF (serMod m ++ rest) = some (projMod m, rest) := by
  have h : serMod m ++ rest =
      lit "\x7b\"shortname\":" ++ (jsonStr m.shortname ++
        (lit ",\"version\":" ++ (jsonStr m.version ++
          (lit ",\"installPath\":" ++ (jsonStr m.installPath ++
            (lit "\x7d" ++ rest)))))) := by
    simp [serMod, List.append_assoc]
  rw [h]
  simp only [parseModF, stripLit_append, parseQ_roundtrip, Option.bind_some,
    Option.some_bind, Option.bind_eq_bind]
  simp [stripLit_append, projMod]

theorem parseContentPre_roundtrip (b ev : String) (ms : List ModMetadata) :
    parseContentPre (combinationContent b ms ev) =
      some (b, ev, serMods ms ++ lit "\x7d") := by
  have h : combinationContent b ms ev =
      lit "\x7b\"baseGameType\":" ++ (jsonStr b ++
        (lit ",\"engineVersion\":" ++ (jsonStr ev ++
          (lit ",\"mods\":" ++ (serMods ms ++ lit "\x7d"))))) := by
    simp [combinationContent, List.append_assoc]
  rw [h]
  simp only [parseContentPre, stripLit_append, parseQ_roundtrip, Option.bind_eq_bind,
    Option.some_bind]

/-- Head-exposing form of `serMod`. -/
theorem serMod_head (m : ModMetadata) :
    serMod m = '\x7b' :: (lit "\"shortname\":" ++ jsonStr m.shortname ++
      lit ",\"version\":" ++ jsonStr m.version ++
      lit ",\"installPath\":" ++ jsonStr m.installPath ++ lit "\x7d") := rfl

theorem serModsRest_inj : ∀ (t1 t2 : List ModMetadata) (r1 r2 : List Char),
    serModsRest t1 ++ ']' :: r1 = serModsRest t2 ++ ']' :: r2 →
    t1.map projMod = t2.map projMod ∧ r1 = r2 := by
  intro t1
  induction t1 with
  | nil =>
    intro t2 r1 r2 h
    cases t2 with
    | nil => simpa [serModsRest] using h
    | cons m t =>
      rw [serModsRest, serModsRest] at h
      simp only [List.nil_append, List.cons_append] at h
      exact absurd (List.head_eq_of_cons_eq h) (by decide)
  | cons m1 t1' ih =>
    intro t2 r1 r2 h
    cases t2 with
    | nil =>
      rw [serModsRest, serModsRest] at h
      simp only [List.nil_append, List.cons_append] at h
      exact absurd (List.head_eq_of_cons_eq h) (by decide)
    | cons m2 t2' =>
      rw [serModsRest, serModsRest] at h
      simp only [List.cons_append, List.append_assoc] at h
      have h2 := List.tail_eq_of_cons_eq h
      have h3 := congrArg parseModF h2
      rw [parseModF_roundtrip, parseModF_roundtrip] at h3
      have h4 := Option.some.inj h3
      have h5 : projMod m1 = projMod m2 := congrArg Prod.fst h4
      have h6 := congrArg Prod.snd h4
      simp only at h6
      have h7 := ih t2' r1 r2 h6
      exact ⟨by simp [h5, h7.1], h7.2⟩

theorem serMods_inj (ms1 ms2 : List ModMetadata) (r1 r2 : List Char)
    (h : serMods ms1 ++ r1 = serMods ms2 ++ r2) :
    ms1.map projMod = ms2.map projMod ∧ r1 = r2 := by
  cases ms1 with
  | nil =>
    cases ms2 with
    | nil => simpa [serMods, lit] using h
    | cons m2 t2 =>
      rw [serMods, serMods, serMod_head] at h
      simp only [lit, List.cons_append, List.append_assoc] at h
      have := List.tail_eq_of_cons_eq h
      exact absurd (List.head_eq_of_cons_eq this) (by decide)
  | cons m1 t1 =>
    cases ms2 with
    | nil =>
      rw [serMods, serMods, serMod_head] at h
      simp only [lit, List.cons_append, List.append_assoc] at h
      have := List.tail_eq_of_cons_eq h
      exact absurd (List.head_eq_of_cons_eq this) (by decide)
    | cons m2 t2 =>
      rw [serMods, serMods] at h
      simp only [List.cons_append, List.append_assoc] at h
      have h2 := List.tail_eq_of_cons_eq h
      have h3 := congrArg parseModF h2
      rw [parseModF_roundtrip, parseModF_roundtrip] at h3
      have h4 := Option.some.inj h3
      have h5 : projMod m1 = projMod m2 := congrArg Prod.fst h4
      have h6 := congrArg Prod.snd h4
      simp only at h6
      have h7 := serModsRest_inj t1 t2 r1 r2 h6
      exact ⟨by simp [h5, h7.1], h7.2⟩

/-- The serialized combination determines the base type, the engine version,
and the hashed projections of the mods. -/
theorem combinationContent_inj (b1 b2 ev1 ev2 : String)
    (ms1 ms2 : List ModMetadata)
    (h : combinationContent b1 ms1 ev1 = combinationContent b2 ms2 ev2) :
    b1 = b2 ∧ ev1 = ev2 ∧ ms1.map projMod = ms2.map projMod := by
  have h1 := congrArg parseContentPre h
  rw [parseContentPre_roundtrip, parseContentPre_roundtrip] at h1
  have h2 := Option.some.inj h1
  have hb : b1 = b2 := congrArg Prod.fst h2
  have h3 := congrArg Prod.snd h2
  have hev : ev1 = ev2 := congrArg Prod.fst h3
  have h4 : serMods ms1 ++ lit "\x7d" = serMods ms2 ++ lit "\x7d" :=
    congrArg Prod.snd h3
  exact ⟨hb, hev, (serMods_inj ms1 ms2 _ _ h4).1⟩

/-- Conversely, the serialization depends only on the hashed projections. -/
theorem combinationContent_congr (b ev : String) (ms1 ms2 : List ModMetadata)
    (h : ms1.map projMod = ms2.map projMod) :
    combinationContent b ms1 ev = combinationContent b ms2 ev := by
  have hs : serMods ms1 = serMods ms2 := by
    have haux : ∀ (l1 l2 : List ModMetadata), l1.map projMod = l2.map projMod →
        serMods l1 = serMods l2 ∧ serModsRest l1 = serModsRest l2 := by
      intro l1
      induction l1 with
      | nil => intro l2 h'; cases l2 with
        | nil => exact ⟨rfl, rfl⟩
        | cons _ _ => simp at h'
      | cons m t ihs => intro l2 h'; cases l2 with
        | nil => simp at h'
        | cons m2 t2 =>
          simp only [List.map_cons, List.cons.injEq] at h'
          have hm : serMod m = serMod m2 := by
            have e1 : m.shortname = m2.shortname := congrArg Prod.fst h'.1
            have e2 : m.version = m2.version :=
              congrArg Prod.fst (congrArg Prod.snd h'.1)
            have e3 : m.installPath = m2.installPath :=
              congrArg Prod.snd (congrArg Prod.snd h'.1)
            simp [serMod, e1, e2, e3]
          have ht := ihs t2 h'.2
          constructor
          · rw [serMods, serMods, hm, ht.2]
          · rw [serModsRest, serModsRest, hm, ht.2]
    exact (haux ms1 ms2 h).1
  simp [combinationContent, hs]

/-! ### Filesystem model

A filesystem is a finite tree; a directory's entries are kept in listing
order (`fs.readdir` order).  Paths are segment lists. -/

mutual
inductive FSNode where
  | file (content : String) : FSNode
  | dir (entries : FSEntries) : FSNode
inductive FSEntries where
  | nil : FSEntries
  | cons (name : String) (node : FSNode) (rest : FSEntries) : FSEntries
end

/-- Look up a directory entry by name. -/
def lookupE : FSEntries → String → Option FSNode
  | .nil, _ => none
  | .cons n x r, a => if n = a then some x else lookupE r a

/-- Set (replace or append) a directory entry. -/
def setE : FSEntries → String → FSNode → FSEntries
  | .nil, a, v => .cons a v .nil
  | .cons n x r, a, v => if n = a then .cons n v r else .cons n x (setE r a v)

/-- Remove a directory entry. -/
def removeE : FSEntries → String → FSEntries
  | .nil, _ => .nil
  | .cons n x r, a => if n = a then removeE r a else .cons n x (removeE r a)

/-- Entry names in listing order (`fs.readdir`). -/
def namesOfE : FSEntries → List String
  | .nil => []
  | .cons n _ r => n :: namesOfE r

/-- Resolve a path to the node it denotes, if any (`fs.stat` succeeding). -/
def nodeLookup : FSNode → List String → Option FSNode
  | n, [] => some n
  | .file _, _ :: _ => none
  | .dir es, a :: p =>
    match lookupE es a with
    | some c => nodeLookup c p
    | none => none

/-- `fileExists` of the service: `fs.access` succeeds iff the path resolves
(to a file or a directory). -/
def fileExists (fs : FSNode) (p : List String) : Bool :=
  (nodeLookup fs p).isSome

/-- Content of the file at a path, if the path denotes a file. -/
def readFile (fs : FSNode) (p : List String) : Option String :=
  match nodeLookup fs p with
  | some (.file c) => some c
  | _ => none

/-! Well-formedness: entry names are distinct at every level (true of every
real directory tree). -/
mutual
/-- Node well-formedness. -/
def wfN : FSNode → Bool
  | .file _ => true
  | .dir es => wfE es
/-- Entries well-formedness. -/
def wfE : FSEntries → Bool
  | .nil => true
  | .cons n x r => !(lookupE r n).isSome && wfN x && wfE r
end

/-- Generic path update: walk to `p` and apply `f` to the node found there
(or `none`).  Intermediate segments must be directories (`ENOTDIR`
otherwise); missing intermediate directories are created when `create` is
true (`mkdir -p` behaviour of `fs.cp`) and are an error otherwise. -/
def modifyAt : FSNode → List String → (Option FSNode → Except String FSNode) → Bool →
    Except String FSNode
  | n, [], f, _ => f (some n)
  | .file _, _ :: _, _, _ => .error "ENOTDIR"
  | .dir es, [a], f, _ =>
    match f (lookupE es a) with
    | .error e => .error e
    | .ok c => .ok (.dir (setE es a c))
  | .dir es, a :: b :: p, f, create =>
    match lookupE es a with
    | some child =>
      match modifyAt child (b :: p) f create with
      | .error e => .error e
      | .ok c => .ok (.dir (setE es a c))
    | none =>
      if create then
        match modifyAt (.dir .nil) (b :: p) f create with
        | .error e => .error e
        | .ok c => .ok (.dir (setE es a c))
      else .error "ENOENT"

/-- `fs.rm(path, { recursive: true, force: true })`: removes the subtree at
`p`; succeeds (as the identity) when the path is absent. -/
def rmTree : FSNode → List String → FSNode
  | n, [] => n
  | .file c, _ :: _ => .file c
  | .dir es, [a] => .dir (removeE es a)
  | .dir es, a :: b :: p =>
    match lookupE es a with
    | some child => .dir (setE es a (rmTree child (b :: p)))
    | none => .dir es

/-- `fs.writeFile`: parent directory must exist; overwrites a file,
fails on an existing directory. -/
def writeFileFs (fs : FSNode) (p : List String) (content : String) :
    Except String FSNode :=
  modifyAt fs p
    (fun old =>
      match old with
      | some (.dir _) => .error "EISDIR"
      | _ => .ok (.file content))
    false

/-! ### The overlay loop of `overlayDirectory`

For each entry of the source directory, in listing order: a subdirectory is
`mkdir`-ed at the destination (error if a file is in the way) and recursed
into; a file is copied with `fs.copyFile`, overwriting an existing file,
error if a directory is in the way. -/

def overlayE : FSEntries → FSEntries → Except String FSEntries
  | .nil, d => .ok d
  | .cons n (.file c) rest, d =>
    match lookupE d n with
    | some (.dir _) => .error "EISDIR"
    | _ => overlayE rest (setE d n (.file c))
  | .cons n (.dir sub) rest, d =>
    match lookupE d n with
    | some (.file _) => .error "EEXIST"
    | some (.dir d2) =>
      match overlayE sub d2 with
      | .error e => .error e
      | .ok d2' => overlayE rest (setE d n (.dir d2'))
    | none =>
      match overlayE sub .nil with
      | .error e => .error e
      | .ok d0 => overlayE rest (setE d n (.dir d0))

/-! ### Basic filesystem lemmas -/

theorem lookupE_setE_self : ∀ (es : FSEntries) (a : String) (v : FSNode),
    lookupE (setE es a v) a = some v
  | .nil, a, v => by simp [setE, lookupE]
  | .cons n x r, a, v => by
    by_cases h : n = a
    · simp [setE, lookupE, h]
    · simp [setE, lookupE, h, lookupE_setE_self r a v]

theorem lookupE_setE_other : ∀ (es : FSEntries) (a b : String) (v : FSNode),
    b ≠ a → lookupE (setE es a v) b = lookupE es b
  | .nil, a, b, v, h => by simp [setE, lookupE, Ne.symm h]
  | .cons n x r, a, b, v, h => by
    by_cases hn : n = a
    · subst hn
      simp [setE, lookupE, Ne.symm h]
    · by_cases hb : n = b
      · simp [setE, lookupE, hn, hb, h]
      · simp [setE, lookupE, hn, hb, lookupE_setE_other r a b v h]

theorem lookupE_removeE_self : ∀ (es : FSEntries) (a : String),
    lookupE (removeE es a) a = none
  | .nil, a => by simp [removeE, lookupE]
  | .cons n x r, a => by
    by_cases h : n = a
    · simp [removeE, h, lookupE_removeE_self r a]
    · simp [removeE, lookupE, h, lookupE_removeE_self r a]

theorem lookupE_removeE_other : ∀ (es : FSEntries) (a b : String), b ≠ a →
    lookupE (removeE es a) b = lookupE es b
  | .nil, a, b, h => by simp [removeE]
  | .cons n x r, a, b, h => by
    by_cases hn : n = a
    · subst hn
      simp [removeE, lookupE, Ne.symm h, lookupE_removeE_other r n b h]
    · by_cases hb : n = b
      · simp [removeE, lookupE, hn, hb, h]
      · simp [removeE, lookupE, hn, hb, lookupE_removeE_other r a b h]

theorem nodeLookup_dir_cons (es : FSEntries) (a : String) (q : List String) :
    nodeLookup (.dir es) (a :: q) =
      match lookupE es a with
      | some c => nodeLookup c q
      | none => none := rfl

theorem nodeLookup_dirNil (q : List String) (h : q ≠ []) :
    nodeLookup (.dir .nil) q = none := by
  cases q with
  | nil => exact absurd rfl h
  | cons a q' => rfl

theorem nodeLookup_file_ne_nil (c : String) (q : List String) (h : q ≠ []) :
    nodeLookup (.file c) q = none := by
  cases q with
  | nil => exact absurd rfl h
  | cons a q' => rfl

/-- Frame property of `modifyAt`: paths that diverge from the modified path
(neither is a prefix of the other) resolve to the same node afterwards. -/
theorem modifyAt_frame : ∀ (p : List String) (fs fs' : FSNode)
    (f : Option FSNode → Except String FSNode) (create : Bool),
    modifyAt fs p f create = .ok fs' → ∀ q : List String,
    ¬ p <+: q → ¬ q <+: p → nodeLookup fs' q = nodeLookup fs q := by
  intro p
  induction p with
  | nil =>
    intro fs fs' f create _ q hpq _
    exact absurd (List.nil_prefix) hpq
  | cons a p' ih =>
    intro fs fs' f create h q hpq hqp
    cases fs with
    | file c => cases p' <;> simp [modifyAt] at h
    | dir es =>
      cases q with
      | nil => exact absurd (List.nil_prefix) hqp
      | cons b q' =>
        by_cases hba : b = a
        · subst hba
          have hpq' : ¬ p' <+: q' := fun hh => hpq (List.cons_prefix_cons.mpr ⟨rfl, hh⟩)
          have hqp' : ¬ q' <+: p' := fun hh => hqp (List.cons_prefix_cons.mpr ⟨rfl, hh⟩)
          cases p' with
          | nil => exact absurd (List.nil_prefix) hpq'
          | cons a2 p2 =>
            rw [modifyAt] at h
            cases hl : lookupE es b with
            | some child =>
              simp only [hl] at h
              cases hm : modifyAt child (a2 :: p2) f create with
              | error e => simp only [hm] at h; simp at h
              | ok c2 =>
                simp only [hm, Except.ok.injEq] at h
                subst h
                simp only [nodeLookup_dir_cons, lookupE_setE_self, hl]
                exact ih child c2 f create hm q' hpq' hqp'
            | none =>
              simp only [hl] at h
              cases hcr : create with
              | false => simp only [hcr] at h; simp at h
              | true =>
                simp only [hcr, if_true] at h
                cases hm : modifyAt (.dir .nil) (a2 :: p2) f true with
                | error e => simp only [hm] at h; simp at h
                | ok c2 =>
                  simp only [hm, Except.ok.injEq] at h
                  subst h
                  have hq'ne : q' ≠ [] := by
                    intro hq
                    exact hqp' (hq ▸ List.nil_prefix)
                  simp only [nodeLookup_dir_cons, lookupE_setE_self, hl]
                  rw [ih (.dir .nil) c2 f true hm q' hpq' hqp',
                    nodeLookup_dirNil q' hq'ne]
        · cases p' with
          | nil =>
            rw [modifyAt] at h
            cases hf : f (lookupE es a) with
            | error e => simp only [hf] at h; simp at h
            | ok c2 =>
              simp only [hf, Except.ok.injEq] at h
              subst h
              simp only [nodeLookup_dir_cons, lookupE_setE_other es a b c2 hba]
          | cons a2 p2 =>
            rw [modifyAt] at h
            cases hl : lookupE es a with
            | some child =>
              simp only [hl] at h
              cases hm : modifyAt child (a2 :: p2) f create with
              | error e => simp only [hm] at h; simp at h
              | ok c2 =>
                simp only [hm, Except.ok.injEq] at h
                subst h
                simp only [nodeLookup_dir_cons, lookupE_setE_other es a b c2 hba]
            | none =>
              simp only [hl] at h
              cases hcr : create with
              | false => simp only [hcr] at h; simp at h
              | true =>
                simp only [hcr, if_true] at h
                cases hm : modifyAt (.dir .nil) (a2 :: p2) f true with
                | error e => simp only [hm] at h; simp at h
                | ok c2 =>
                  simp only [hm, Except.ok.injEq] at h
                  subst h
                  simp only [nodeLookup_dir_cons, lookupE_setE_other es a b c2 hba]

/-- Frame property of `rmTree`. -/
theorem rmTree_frame : ∀ (p : List String) (fs : FSNode) (q : List String),
    ¬ p <+: q → ¬ q <+: p → nodeLookup (rmTree fs p) q = nodeLookup fs q := by
  intro p
  induction p with
  | nil => intro fs q hpq _; exact absurd (List.nil_prefix) hpq
  | cons a p' ih =>
    intro fs q hpq hqp
    cases fs with
    | file c => rfl
    | dir es =>
      cases q with
      | nil => exact absurd (List.nil_prefix) hqp
      | cons b q' =>
        by_cases hba : b = a
        · subst hba
          have hpq' : ¬ p' <+: q' := fun hh => hpq (List.cons_prefix_cons.mpr ⟨rfl, hh⟩)
          have hqp' : ¬ q' <+: p' := fun hh => hqp (List.cons_prefix_cons.mpr ⟨rfl, hh⟩)
          cases p' with
          | nil => exact absurd (List.nil_prefix) hpq'
          | cons a2 p2 =>
            rw [rmTree]
            cases hl : lookupE es b with
            | some child =>
              simp only [nodeLookup_dir_cons, lookupE_setE_self, hl]
              exact ih child q' hpq' hqp'
            | none => rfl
        · cases p' with
          | nil =>
            rw [rmTree]
            simp only [nodeLookup_dir_cons, lookupE_removeE_other es a b hba]
          | cons a2 p2 =>
            rw [rmTree]
            cases hl : lookupE es a with
            | some child =>
              simp only [nodeLookup_dir_cons, lookupE_setE_other es a b _ hba]
            | none => rfl

/-- `rmTree` removes the target path. -/
theorem rmTree_self : ∀ (p : List String) (fs : FSNode), p ≠ [] →
    nodeLookup (rmTree fs p) p = none := by
  intro p
  induction p with
  | nil => intro fs h; exact absurd rfl h
  | cons a p' ih =>
    intro fs _
    cases fs with
    | file c => exact nodeLookup_file_ne_nil c _ (by simp)
    | dir es =>
      cases p' with
      | nil =>
        rw [rmTree]
        simp only [nodeLookup_dir_cons, lookupE_removeE_self]
      | cons a2 p2 =>
        rw [rmTree]
        cases hl : lookupE es a with
        | some child =>
          simp only [nodeLookup_dir_cons, lookupE_setE_self]
          exact ih child (by simp)
        | none =>
          simp only [nodeLookup_dir_cons, hl]

/-! ### Overlay lemmas -/

theorem wfE_cons (n : String) (x : FSNode) (r : FSEntries)
    (h : wfE (.cons n x r) = true) :
    lookupE r n = none ∧ wfN x = true ∧ wfE r = true := by
  rw [wfE] at h
  simp only [Bool.and_eq_true, Bool.not_eq_true'] at h
  refine ⟨?_, h.1.2, h.2⟩
  have := h.1.1
  cases hl : lookupE r n with
  | none => rfl
  | some v => rw [hl] at this; simp at this

theorem wfE_lookup : ∀ (es : FSEntries) (a : String) (x : FSNode),
    wfE es = true → lookupE es a = some x → wfN x = true
  | .nil, a, x, _, ha => by simp [lookupE] at ha
  | .cons n y r, a, x, hwf, ha => by
    have hw := wfE_cons n y r hwf
    by_cases hn : n = a
    · rw [lookupE, if_pos hn] at ha
      cases ha
      exact hw.2.1
    · rw [lookupE, if_neg hn] at ha
      exact wfE_lookup r a x hw.2.2 ha

theorem lookupE_cons_ne (n : String) (x : FSNode) (r : FSEntries) (a : String)
    (h : ¬ n = a) : lookupE (.cons n x r) a = lookupE r a := by
  rw [lookupE, if_neg h]

/-- Entries not named in the overlay source keep their binding. -/
theorem overlayE_lookup_none : ∀ (src d d' : FSEntries),
    overlayE src d = .ok d' → ∀ a, lookupE src a = none →
    lookupE d' a = lookupE d a
  | .nil, d, d', h, a, _ => by
    rw [overlayE] at h
    cases h
    rfl
  | .cons n (.file c) rest, d, d', h, a, ha => by
    by_cases hn : n = a
    · rw [lookupE, if_pos hn] at ha; simp at ha
    · rw [lookupE, if_neg hn] at ha
      rw [overlayE] at h
      have hane : a ≠ n := fun hh => hn hh.symm
      cases hl : lookupE d n with
      | some v =>
        cases v with
        | dir es2 => simp only [hl] at h; simp at h
        | file c0 =>
          simp only [hl] at h
          rw [overlayE_lookup_none rest _ d' h a ha,
            lookupE_setE_other d n a _ hane]
      | none =>
        simp only [hl] at h
        rw [overlayE_lookup_none rest _ d' h a ha,
          lookupE_setE_other d n a _ hane]
  | .cons n (.dir sub) rest, d, d', h, a, ha => by
    by_cases hn : n = a
    · rw [lookupE, if_pos hn] at ha; simp at ha
    · rw [lookupE, if_neg hn] at ha
      rw [overlayE] at h
      have hane : a ≠ n := fun hh => hn hh.symm
      cases hl : lookupE d n with
      | some v =>
        cases v with
        | file c0 => simp only [hl] at h; simp at h
        | dir d2 =>
          simp only [hl] at h
          cases hs : overlayE sub d2 with
          | error e => simp only [hs] at h; simp at h
          | ok d2' =>
            simp only [hs] at h
            rw [overlayE_lookup_none rest _ d' h a ha,
              lookupE_setE_other d n a _ hane]
      | none =>
        simp only [hl] at h
        cases hs : overlayE sub .nil with
        | error e => simp only [hs] at h; simp at h
        | ok d0 =>
          simp only [hs] at h
          rw [overlayE_lookup_none rest _ d' h a ha,
            lookupE_setE_other d n a _ hane]

/-- A file entry of the overlay source ends up as that file in the result,
and the destination cannot have had a directory there (the copy would have
failed). -/
theorem overlayE_file_slot : ∀ (src d d' : FSEntries),
    overlayE src d = .ok d' → wfE src = true → ∀ a c,
    lookupE src a = some (.file c) →
    lookupE d' a = some (.file c) ∧ ∀ es2, lookupE d a ≠ some (.dir es2)
  | .nil, d, d', _, _, a, c, ha => by simp [lookupE] at ha
  | .cons n x rest, d, d', h, hwf, a, c, ha => by
    have hw := wfE_cons n x rest hwf
    by_cases hn : n = a
    · subst hn
      rw [lookupE, if_pos rfl] at ha
      cases ha
      rw [overlayE] at h
      cases hl : lookupE d n with
      | some v =>
        cases v with
        | dir es2 => simp only [hl] at h; simp at h
        | file c0 =>
          simp only [hl] at h
          constructor
          · rw [overlayE_lookup_none rest _ d' h n hw.1, lookupE_setE_self]
          · intro es2 hcontra
            simp at hcontra
      | none =>
        simp only [hl] at h
        constructor
        · rw [overlayE_lookup_none rest _ d' h n hw.1, lookupE_setE_self]
        · intro es2 hcontra
          simp at hcontra
    · rw [lookupE, if_neg hn] at ha
      have hane : a ≠ n := fun hh => hn hh.symm
      cases x with
      | file c1 =>
        rw [overlayE] at h
        cases hl : lookupE d n with
        | some v =>
          cases v with
          | dir es2 => simp only [hl] at h; simp at h
          | file c0 =>
            simp only [hl] at h
            have := overlayE_file_slot rest _ d' h hw.2.2 a c ha
            rw [lookupE_setE_other d n a _ hane] at this
            exact this
        | none =>
          simp only [hl] at h
          have := overlayE_file_slot rest _ d' h hw.2.2 a c ha
          rw [lookupE_setE_other d n a _ hane] at this
          exact this
      | dir sub =>
        rw [overlayE] at h
        cases hl : lookupE d n with
        | some v =>
          cases v with
          | file c0 => simp only [hl] at h; simp at h
          | dir d2 =>
            simp only [hl] at h
            cases hs : overlayE sub d2 with
            | error e => simp only [hs] at h; simp at h
            | ok d2' =>
              simp only [hs] at h
              have := overlayE_file_slot rest _ d' h hw.2.2 a c ha
              rw [lookupE_setE_other d n a _ hane] at this
              exact this
        | none =>
          simp only [hl] at h
          cases hs : overlayE sub .nil with
          | error e => simp only [hs] at h; simp at h
          | ok d0 =>
            simp only [hs] at h
            have := overlayE_file_slot rest _ d' h hw.2.2 a c ha
            rw [lookupE_setE_other d n a _ hane] at this
            exact this

/-- A directory entry of the overlay source ends up as the overlay of its
subtree onto whatever directory (possibly empty) the destination had. -/
theorem overlayE_dir_slot : ∀ (src d d' : FSEntries),
    overlayE src d = .ok d' → wfE src = true → ∀ a sub,
    lookupE src a = some (.dir sub) →
    ∃ d2', lookupE d' a = some (.dir d2') ∧
      ((∃ d2, lookupE d a = some (.dir d2) ∧ overlayE sub d2 = .ok d2') ∨
       (lookupE d a = none ∧ overlayE sub .nil = .ok d2'))
  | .nil, d, d', _, _, a, sub, ha => by simp [lookupE] at ha
  | .cons n x rest, d, d', h, hwf, a, sub, ha => by
    have hw := wfE_cons n x rest hwf
    by_cases hn : n = a
    · subst hn
      rw [lookupE, if_pos rfl] at ha
      cases ha
      rw [overlayE] at h
      cases hl : lookupE d n with
      | some v =>
        cases v with
        | file c0 => simp only [hl] at h; simp at h
        | dir d2 =>
          simp only [hl] at h
          cases hs : overlayE sub d2 with
          | error e => simp only [hs] at h; simp at h
          | ok d2' =>
            simp only [hs] at h
            refine ⟨d2', ?_, Or.inl ⟨d2, rfl, hs⟩⟩
            rw [overlayE_lookup_none rest _ d' h n hw.1, lookupE_setE_self]
      | none =>
        simp only [hl] at h
        cases hs : overlayE sub .nil with
        | error e => simp only [hs] at h; simp at h
        | ok d0 =>
          simp only [hs] at h
          refine ⟨d0, ?_, Or.inr ⟨rfl, rfl⟩⟩
          rw [overlayE_lookup_none rest _ d' h n hw.1, lookupE_setE_self]
    · rw [lookupE, if_neg hn] at ha
      have hane : a ≠ n := fun hh => hn hh.symm
      cases x with
      | file c1 =>
        rw [overlayE] at h
        cases hl : lookupE d n with
        | some v =>
          cases v with
          | dir es2 => simp only [hl] at h; simp at h
          | file c0 =>
            simp only [hl] at h
            have := overlayE_dir_slot rest _ d' h hw.2.2 a sub ha
            rw [lookupE_setE_other d n a _ hane] at this
            exact this
        | none =>
          simp only [hl] at h
          have := overlayE_dir_slot rest _ d' h hw.2.2 a sub ha
          rw [lookupE_setE_other d n a _ hane] at this
          exact this
      | dir sub1 =>
        rw [overlayE] at h
        cases hl : lookupE d n with
        | some v =>
          cases v with
          | file c0 => simp only [hl] at h; simp at h
          | dir d2 =>
            simp only [hl] at h
            cases hs : overlayE sub1 d2 with
            | error e => simp only [hs] at h; simp at h
            | ok d2' =>
              simp only [hs] at h
              have := overlayE_dir_slot rest _ d' h hw.2.2 a sub ha
              rw [lookupE_setE_other d n a _ hane] at this
              exact this
        | none =>
          simp only [hl] at h
          cases hs : overlayE sub1 .nil with
          | error e => simp only [hs] at h; simp at h
          | ok d0 =>
            simp only [hs] at h
            have := overlayE_dir_slot rest _ d' h hw.2.2 a sub ha
            rw [lookupE_setE_other d n a _ hane] at this
            exact this

/-- Slot-resolving forms of `nodeLookup`. -/
theorem nodeLookup_slot_some (es : FSEntries) (a : String) (q : List String)
    (c : FSNode) (h : lookupE es a = some c) :
    nodeLookup (.dir es) (a :: q) = nodeLookup c q := by
  simp only [nodeLookup_dir_cons, h]

theorem nodeLookup_slot_none (es : FSEntries) (a : String) (q : List String)
    (h : lookupE es a = none) : nodeLookup (.dir es) (a :: q) = none := by
  simp only [nodeLookup_dir_cons, h]

/-- Frame property of a successful overlay: any relative path that does not
occur under the overlay source resolves to the same node in the destination
before and after. -/
theorem overlayE_node_frame : ∀ (p : List String) (src d d' : FSEntries),
    overlayE src d = .ok d' → wfE src = true →
    nodeLookup (.dir src) p = none →
    nodeLookup (.dir d') p = nodeLookup (.dir d) p := by
  intro p
  induction p with
  | nil => intro src d d' _ _ hnone; simp [nodeLookup] at hnone
  | cons a q ih =>
    intro src d d' h hwf hnone
    cases hsrc : lookupE src a with
    | none =>
      have hslot := overlayE_lookup_none src d d' h a hsrc
      cases hd : lookupE d a with
      | none =>
        rw [nodeLookup_slot_none d' a q (hslot.trans hd),
          nodeLookup_slot_none d a q hd]
      | some v =>
        rw [nodeLookup_slot_some d' a q v (hslot.trans hd),
          nodeLookup_slot_some d a q v hd]
    | some x =>
      have hnone' : nodeLookup x q = none := by
        rw [nodeLookup_slot_some src a q x hsrc] at hnone
        exact hnone
      cases x with
      | file c =>
        cases q with
        | nil => simp [nodeLookup] at hnone'
        | cons y q2 =>
          have hslot := overlayE_file_slot src d d' h hwf a c hsrc
          rw [nodeLookup_slot_some d' a _ _ hslot.1,
            nodeLookup_file_ne_nil c _ (by simp)]
          cases hd : lookupE d a with
          | none => rw [nodeLookup_slot_none d a _ hd]
          | some v =>
            cases v with
            | file c0 =>
              rw [nodeLookup_slot_some d a _ _ hd,
                nodeLookup_file_ne_nil c0 _ (by simp)]
            | dir es2 => exact absurd hd (hslot.2 es2)
      | dir sub =>
        have hwsub : wfE sub = true := by
          have hx := wfE_lookup src a (.dir sub) hwf hsrc
          rwa [wfN] at hx
        obtain ⟨d2', hslot, hcase⟩ := overlayE_dir_slot src d d' h hwf a sub hsrc
        rw [nodeLookup_slot_some d' a q _ hslot]
        cases hcase with
        | inl hc =>
          obtain ⟨d2, hd, hov⟩ := hc
          rw [nodeLookup_slot_some d a q _ hd]
          exact ih sub d2 d2' hov hwsub hnone'
        | inr hc =>
          have hq : q ≠ [] := by
            intro hqe
            subst hqe
            simp [nodeLookup] at hnone'
          rw [nodeLookup_slot_none d a q hc.1,
            ih sub .nil d2' hc.2 hwsub hnone', nodeLookup_dirNil q hq]

/-! ### Service constants -/

/-- Modelled from the spec: `WRITE_DATA_PATH` comes from `config/app.ts`,
which is not in the provided sources; it is "the writable-data-root location,
supplied by the external configuration collaborator".  We model it as an
abstract root segment. -/
def writeDataPath : List String := ["WRITE_DATA_PATH"]

/-- Modelled from the spec: `process.cwd()`, the bundled-assets root. -/
def cwdPath : List String := ["CWD"]

/-- `path.join(WRITE_DATA_PATH, "baked-games")`. -/
def bakedGamesDir : List String := writeDataPath ++ ["baked-games"]

/-- The ordered base-game search roots of `findBaseGame`. -/
def possiblePaths (engineVersion : String) : List (List String) :=
  [writeDataPath ++ ["games"],
   cwdPath ++ ["assets", "engine", engineVersion, "games"],
   cwdPath ++ ["assets", "games"]]

/-- Display form of a path (for error messages). -/
def pathToStr (p : List String) : String := String.intercalate "/" p

/-! ### `isValidGameArchive` and `findBaseGame` -/

/-- `isValidGameArchive`: a directory whose path ends in `.sdd` is valid iff
it contains `modinfo.lua`; a file ending in `.sdz`/`.sd7` is assumed valid; a
path that cannot be statted yields `false` (the `catch` branch), never an
error.  (`archivePath.endsWith(ext)` holds iff the last path segment ends in
`ext`, since `ext` never contains the separator.) -/
def isValidGameArchive (fs : FSNode) (archivePath : List String) : Bool :=
  match nodeLookup fs archivePath with
  | some (.dir _) =>
    if jsEndsWith (archivePath.getLastD "") ".sdd" then
      fileExists fs (archivePath ++ ["modinfo.lua"])
    else false
  | some (.file _) =>
    jsEndsWith (archivePath.getLastD "") ".sdz" ||
      jsEndsWith (archivePath.getLastD "") ".sd7"
  | none => false

/-- The candidate filter of `findBaseGame`:
`file.toLowerCase().includes(gameType.toLowerCase()) || …("byar") || …("beyond")`. -/
def nameMatches (gameType file : String) : Bool :=
  jsIncludes (jsLower file) (jsLower gameType) ||
  jsIncludes (jsLower file) "byar" ||
  jsIncludes (jsLower file) "beyond"

/-- `fs.readdir`: entry names of a directory, in listing order. -/
def readdirNames (fs : FSNode) (p : List String) : Option (List String) :=
  match nodeLookup fs p with
  | some (.dir es) => some (namesOfE es)
  | _ => none

/-- One iteration of `findBaseGame`'s outer loop: skip a missing search
directory; list an existing one (a non-directory makes `fs.readdir` throw);
filter candidates by name; return the first candidate passing
`isValidGameArchive`. -/
def searchGamesDir (fs : FSNode) (gameType : String) (searchDir : List String) :
    Except String (Option (List String)) :=
  if fileExists fs searchDir then
    match readdirNames fs searchDir with
    | none => .error "ENOTDIR"
    | some files =>
      let candidates := files.filter (fun file => nameMatches gameType file)
      .ok ((candidates.find?
        (fun c => isValidGameArchive fs (searchDir ++ [c]))).map
          (fun c => searchDir ++ [c]))
  else .ok none

/-- The outer loop of `findBaseGame` over the search roots. -/
def findBaseGameLoop (fs : FSNode) (gameType : String) :
    List (List String) → Except String (List String)
  | [] => .error ("Base game not found for: " ++ gameType)
  | d :: rest =>
    match searchGamesDir fs gameType d with
    | .error e => .error e
    | .ok (some p) => .ok p
    | .ok none => findBaseGameLoop fs gameType rest

/-- `findBaseGame`. -/
def findBaseGame (fs : FSNode) (gameType engineVersion : String) :
    Except String (List String) :=
  findBaseGameLoop fs gameType (possiblePaths engineVersion)

/-! ### `extractArchive`, `overlayDirectory`, `applyModDelta` -/

/-- `fs.cp(src, dest, { recursive: true })` merge step: copying onto nothing
places the source; directories merge (overwriting files like the overlay
loop); a file/directory kind conflict is an error. -/
def mergeCp (src : FSNode) : Option FSNode → Except String FSNode
  | none => .ok src
  | some old =>
    match src, old with
    | .dir s, .dir d =>
      match overlayE s d with
      | .error e => .error e
      | .ok d' => .ok (.dir d')
    | .file c, .file _ => .ok (.file c)
    | .file _, .dir _ => .error "ERR_FS_CP_NON_DIR_TO_DIR"
    | .dir _, .file _ => .error "ERR_FS_CP_DIR_TO_NON_DIR"

/-- `extractArchive`: a directory base is copied recursively to the
destination; a packaged-archive file fails with the `Unsupported` error the
source raises; a missing source fails the `fs.stat`. -/
def extractArchive (fs : FSNode) (archivePath destDir : List String) :
    Except String FSNode :=
  match nodeLookup fs archivePath with
  | none => .error "ENOENT"
  | some (.file _) =>
    .error ("Zip extraction not yet implemented for: " ++ pathToStr archivePath)
  | some (.dir es) => modifyAt fs destDir (mergeCp (.dir es)) true

/-- `overlayDirectory` at the filesystem level: read the source directory,
merge it entry-by-entry onto the destination directory (`overlayE`), write
back.  In every call site of the service the destination already exists as a
directory (created by `extractArchive` at the same path); when it does not,
the model reports the failure the first copied entry would hit — except for
an empty source directory, whose loop body never runs. -/
def overlayDirectory (fs : FSNode) (srcDir destDir : List String) :
    Except String FSNode :=
  match nodeLookup fs srcDir with
  | none => .error "ENOENT"
  | some (.file _) => .error "ENOTDIR"
  | some (.dir ses) =>
    match nodeLookup fs destDir with
    | some (.dir des) =>
      match overlayE ses des with
      | .error e => .error e
      | .ok des' => modifyAt fs destDir (fun _ => .ok (.dir des')) true
    | _ =>
      match ses with
      | .nil => .ok fs
      | .cons _ _ _ => .error "ENOENT"

/-- `applyModDelta`: overlay the mod's install directory onto the baked game
directory. -/
def applyModDelta (fs : FSNode) (mod : ModMetadata) (bakedGameDir : List String) :
    Except String FSNode :=
  overlayDirectory fs (pathSegs mod.installPath) bakedGameDir

/-! ### `createBakedGameModInfo` -/

/-- The exact `modinfo.lua` template of `createBakedGameModInfo`. -/
def modInfoContent (baseGameType : String) (mods : List ModMetadata)
    (shortname : String) : String :=
  "return \x7b\n    name='" ++ baseGameType ++ " + " ++
    String.intercalate " + " (mods.map (fun m => m.name)) ++
  "',\n    description='Baked game combining " ++ baseGameType ++ " with " ++
    toString mods.length ++
  " mod(s)',\n    version='baked-1.0.0',\n    shortname='" ++ shortname ++
  "',\n    game='Beyond All Reason',\n    shortGame='BAR',\n    modtype=1, -- Game type\n    depend = \x7b\n        -- Base game dependencies inherited\n    \x7d\n\x7d"

/-- `createBakedGameModInfo`: write `modinfo.lua` into the baked game
directory; its `shortname` is derived from the hash of the combination with
an empty engine version, truncated to 8 characters. -/
def createBakedGameModInfo (digest : List Char → String) (fs : FSNode)
    (bakedGameDir : List String) (baseGameType : String)
    (mods : List ModMetadata) : Except String FSNode :=
  let shortname :=
    "baked-" ++ (generateCombinationHash digest baseGameType mods "").take 8
  writeFileFs fs (bakedGameDir ++ ["modinfo.lua"])
    (modInfoContent baseGameType mods shortname)

/-! ### `cleanupBakedGame` and `bakeGame` -/

/-- `cleanupBakedGame`: `try { if (exists) rm } catch { log.warn }`.  The
removal primitive is a parameter `(thrown error?, resulting state)` so that
statements can quantify over cleanup failures; whatever `rm` does, the catch
swallows its error and the function returns the state `rm` reached. -/
def cleanupBakedGame (rm : FSNode → List String → Option String × FSNode)
    (fs : FSNode) (bakedGameDir : List String) : FSNode :=
  if fileExists fs bakedGameDir then (rm fs bakedGameDir).2 else fs

/-- The default removal model: `fs.rm(…, { recursive: true, force: true })`
succeeding. -/
def rmOk (fs : FSNode) (p : List String) : Option String × FSNode :=
  (none, rmTree fs p)

/-- Observable filesystem construction work of a bake. -/
inductive Effect where
  | baseCopied : Effect
  | overlaid (modName : String) : Effect
  | manifestWritten : Effect
deriving DecidableEq

/-- Result record of `bakeGame` (interface `BakedGameResult`). -/
structure BakedGameResult where
  gameType : String
  archivePath : List String
  hash : String
deriving DecidableEq

/-- State after the build pipeline: the first error (if any), the filesystem
reached, and the construction-work trace. -/
structure BuildOut where
  err : Option String
  fs : FSNode
  trace : List Effect

/-- Outcome of `bakeGame`: the returned-or-thrown result, the filesystem
reached, and the construction-work trace. -/
structure BakeOutcome where
  result : Except String BakedGameResult
  fs : FSNode
  trace : List Effect

/-- Step 2 of `bakeGame`: apply mod deltas in caller order, stopping at the
first failure. -/
def overlayLoop (bakedGameDir : List String) : FSNode → List ModMetadata → BuildOut
  | fs, [] => ⟨none, fs, []⟩
  | fs, m :: rest =>
    match applyModDelta fs m bakedGameDir with
    | .error e => ⟨some e, fs, []⟩
    | .ok fs' =>
      let o := overlayLoop bakedGameDir fs' rest
      ⟨o.err, o.fs, .overlaid m.name :: o.trace⟩

/-- The `try` block of `bakeGame`: find base, extract, apply overlays in
order, write the manifest. -/
def bakeBuild (digest : List Char → String) (baseGameType : String)
    (mods : List ModMetadata) (engineVersion : String)
    (bakedGameDir : List String) (fs : FSNode) : BuildOut :=
  match findBaseGame fs baseGameType engineVersion with
  | .error e => ⟨some e, fs, []⟩
  | .ok baseGamePath =>
    match extractArchive fs baseGamePath bakedGameDir with
    | .error e => ⟨some e, fs, []⟩
    | .ok fs1 =>
      let o := overlayLoop bakedGameDir fs1 mods
      match o.err with
      | some e => ⟨some e, o.fs, .baseCopied :: o.trace⟩
      | none =>
        match createBakedGameModInfo digest o.fs bakedGameDir baseGameType mods with
        | .error e => ⟨some e, o.fs, .baseCopied :: o.trace⟩
        | .ok fs2 => ⟨none, fs2, .baseCopied :: o.trace ++ [.manifestWritten]⟩

/-- `bakeGame`, parametric in the cleanup removal model: hash the
combination; if `baked-<hash>.sdd` exists in the cache directory, return the
descriptor with no filesystem work; otherwise run the build at
`baked-<hash>`, and on failure clean up the working directory and re-throw
the original error. -/
def bakeGameWith (digest : List Char → String)
    (rm : FSNode → List String → Option String × FSNode)
    (options : DeltaBakingOptions) (fs : FSNode) : BakeOutcome :=
  let combinationHash :=
    generateCombinationHash digest options.baseGameType options.mods
      options.engineVersion
  let bakedGameName := "baked-" ++ combinationHash
  let bakedGameDir := bakedGamesDir ++ [bakedGameName]
  let bakedGameArchive := bakedGamesDir ++ [bakedGameName ++ ".sdd"]
  if fileExists fs bakedGameArchive then
    ⟨.ok ⟨bakedGameName, bakedGameArchive, combinationHash⟩, fs, []⟩
  else
    let b := bakeBuild digest options.baseGameType options.mods
      options.engineVersion bakedGameDir fs
    match b.err with
    | none => ⟨.ok ⟨bakedGameName, bakedGameArchive, combinationHash⟩, b.fs, b.trace⟩
    | some e => ⟨.error e, cleanupBakedGame rm b.fs bakedGameDir, b.trace⟩

/-- `bakeGame` with the default (successful) cleanup removal. -/
def bakeGame (digest : List Char → String) (options : DeltaBakingOptions)
    (fs : FSNode) : BakeOutcome :=
  bakeGameWith digest rmOk options fs

/-! ### `cleanupOldBakedGames`

The sweep lists the cache directory and, for each entry that is a directory
whose name starts with `baked-` and whose age exceeds `maxAge`, removes it.
The model works on the directory listing (name, kind, mtime); `rmFails` says
which `fs.rm` calls throw.  The `try`/`catch` in the source wraps the whole
loop: a thrown `fs.rm` is logged and ends the sweep, leaving all remaining
entries untouched. -/

/-- A cache-directory listing entry with its stat mtime (milliseconds). -/
structure SweepEntry where
  name : String
  isDirectory : Bool
  mtimeMs : Int
deriving DecidableEq

/-- The removal condition of the sweep:
`entry.isDirectory() && entry.name.startsWith("baked-")` and
`now - stat.mtime.getTime() > maxAge`. -/
def sweepEligible (now maxAge : Int) (e : SweepEntry) : Bool :=
  e.isDirectory && jsStartsWith e.name "baked-" &&
    decide (now - e.mtimeMs > maxAge)

/-- The sweep loop: surviving entries, in order.  A throwing `fs.rm` is
caught by the catch wrapping the loop, so the failing entry and every entry
after it survive. -/
def sweepLoop (rmFails : String → Bool) (now maxAge : Int) :
    List SweepEntry → List SweepEntry
  | [] => []
  | e :: rest =>
    if sweepEligible now maxAge e then
      if rmFails e.name then e :: rest
      else sweepLoop rmFails now maxAge rest
    else e :: sweepLoop rmFails now maxAge rest

/-- `cleanupOldBakedGames` on the cache-directory listing (`none` = the cache
directory does not exist, in which case the sweep returns immediately). -/
def cleanupOldBakedGames (rmFails : String → Bool) (now maxAge : Int) :
    Option (List SweepEntry) → Option (List SweepEntry)
  | none => none
  | some entries => some (sweepLoop rmFails now maxAge entries)

/-- The default `maxAge`: 7 days in milliseconds. -/
def defaultMaxAge : Int := 7 * 24 * 60 * 60 * 1000

/-! ### Path and composition lemmas -/

theorem nodeLookup_nil (fs : FSNode) : nodeLookup fs [] = some fs := by
  cases fs <;> rfl

theorem nodeLookup_append : ∀ (p : List String) (fs : FSNode) (q : List String),
    nodeLookup fs (p ++ q) =
      match nodeLookup fs p with
      | some n => nodeLookup n q
      | none => none := by
  intro p
  induction p with
  | nil => intro fs q; simp only [List.nil_append, nodeLookup_nil]
  | cons a p' ih =>
    intro fs q
    cases fs with
    | file c => rfl
    | dir es =>
      rw [List.cons_append, nodeLookup_dir_cons, nodeLookup_dir_cons]
      cases hl : lookupE es a with
      | some child => exact ih child q
      | none => rfl

/-- Reading back the node written by a constant `modifyAt`. -/
theorem modifyAt_const_get : ∀ (p : List String) (fs fs' v : FSNode) (create : Bool),
    modifyAt fs p (fun _ => .ok v) create = .ok fs' →
    nodeLookup fs' p = some v := by
  intro p
  induction p with
  | nil =>
    intro fs fs' v create h
    rw [modifyAt] at h
    cases h
    exact nodeLookup_nil _
  | cons a p' ih =>
    intro fs fs' v create h
    cases fs with
    | file c => cases p' <;> simp [modifyAt] at h
    | dir es =>
      cases p' with
      | nil =>
        rw [modifyAt] at h
        cases h
        rw [nodeLookup_slot_some _ a [] v (lookupE_setE_self es a v)]
        exact nodeLookup_nil _
      | cons b p2 =>
        rw [modifyAt] at h
        cases hl : lookupE es a with
        | some child =>
          simp only [hl] at h
          cases hm : modifyAt child (b :: p2) (fun _ => .ok v) create with
          | error e => simp only [hm] at h; simp at h
          | ok c2 =>
            simp only [hm, Except.ok.injEq] at h
            subst h
            rw [nodeLookup_slot_some _ a _ c2 (lookupE_setE_self es a c2)]
            exact ih child c2 v create hm
        | none =>
          simp only [hl] at h
          cases hcr : create with
          | false => simp only [hcr] at h; simp at h
          | true =>
            simp only [hcr, if_true] at h
            cases hm : modifyAt (.dir .nil) (b :: p2) (fun _ => .ok v) true with
            | error e => simp only [hm] at h; simp at h
            | ok c2 =>
              simp only [hm, Except.ok.injEq] at h
              subst h
              rw [nodeLookup_slot_some _ a _ c2 (lookupE_setE_self es a c2)]
              exact ih (.dir .nil) c2 v true hm

/-- Two extensions of the same path by different last segments diverge. -/
theorem diverge_snoc (r : List String) (a b : String) (hab : a ≠ b) :
    ¬ (r ++ [a]) <+: (r ++ [b]) ∧ ¬ (r ++ [b]) <+: (r ++ [a]) := by
  constructor
  · intro h
    have hl : (r ++ [a]).length = (r ++ [b]).length := by simp
    have := h.eq_of_length hl
    have := List.append_inj_right this (by rfl)
    simp at this
    exact hab this
  · intro h
    have hl : (r ++ [b]).length = (r ++ [a]).length := by simp
    have := h.eq_of_length hl
    have := List.append_inj_right this (by rfl)
    simp at this
    exact hab this.symm

/-- A path diverging from `p` also diverges from `p ++ [x]`. -/
theorem diverge_extend (p q : List String) (x : String)
    (hpq : ¬ p <+: q) (hqp : ¬ q <+: p) :
    ¬ (p ++ [x]) <+: q ∧ ¬ q <+: (p ++ [x]) := by
  constructor
  · intro h
    exact hpq (((List.prefix_append p [x]).trans h))
  · intro h
    by_cases hlen : q.length ≤ p.length
    · exact hqp (List.prefix_of_prefix_length_le h (List.prefix_append p [x]) hlen)
    · have hle : (p ++ [x]).length ≤ q.length := by
        have := h.length_le
        simp at this ⊢
        omega
      have := h.eq_of_length (le_antisymm h.length_le (by simpa using hle))
      subst this
      exact hpq (List.prefix_append p [x])

/-! ### Frame lemmas for the build pipeline -/

theorem writeFileFs_frame (fs fs' : FSNode) (p : List String) (content : String)
    (h : writeFileFs fs p content = .ok fs') (q : List String)
    (hpq : ¬ p <+: q) (hqp : ¬ q <+: p) :
    nodeLookup fs' q = nodeLookup fs q :=
  modifyAt_frame p fs fs' _ false h q hpq hqp

theorem extractArchive_frame (fs fs' : FSNode) (src dest : List String)
    (h : extractArchive fs src dest = .ok fs') (q : List String)
    (hpq : ¬ dest <+: q) (hqp : ¬ q <+: dest) :
    nodeLookup fs' q = nodeLookup fs q := by
  rw [extractArchive] at h
  cases hs : nodeLookup fs src with
  | none => simp only [hs] at h; simp at h
  | some v =>
    cases v with
    | file c => simp only [hs] at h; simp at h
    | dir es =>
      simp only [hs] at h
      exact modifyAt_frame dest fs fs' _ true h q hpq hqp

theorem overlayDirectory_frame (fs fs' : FSNode) (src dest : List String)
    (h : overlayDirectory fs src dest = .ok fs') (q : List String)
    (hpq : ¬ dest <+: q) (hqp : ¬ q <+: dest) :
    nodeLookup fs' q = nodeLookup fs q := by
  rw [overlayDirectory] at h
  cases hs : nodeLookup fs src with
  | none => simp only [hs] at h; simp at h
  | some v =>
    cases v with
    | file c => simp only [hs] at h; simp at h
    | dir ses =>
      simp only [hs] at h
      cases hd : nodeLookup fs dest with
      | some w =>
        cases w with
        | dir des =>
          simp only [hd] at h
          cases ho : overlayE ses des with
          | error e => simp only [ho] at h; simp at h
          | ok des' =>
            simp only [ho] at h
            exact modifyAt_frame dest fs fs' _ true h q hpq hqp
        | file c =>
          simp only [hd] at h
          cases ses with
          | nil => cases h; rfl
          | cons n x r => simp at h
      | none =>
        simp only [hd] at h
        cases ses with
        | nil => cases h; rfl
        | cons n x r => simp at h

theorem overlayLoop_frame : ∀ (mods : List ModMetadata) (dir : List String)
    (fs : FSNode) (q : List String),
    ¬ dir <+: q → ¬ q <+: dir →
    nodeLookup (overlayLoop dir fs mods).fs q = nodeLookup fs q := by
  intro mods
  induction mods with
  | nil => intro dir fs q _ _; rfl
  | cons m rest ih =>
    intro dir fs q hpq hqp
    rw [overlayLoop]
    cases ha : applyModDelta fs m dir with
    | error e => rfl
    | ok fs1 =>
      have h1 := overlayDirectory_frame fs fs1 _ dir ha q hpq hqp
      simp only []
      rw [ih dir fs1 q hpq hqp, h1]

theorem createBakedGameModInfo_frame (digest : List Char → String)
    (fs fs' : FSNode) (dir : List String) (b : String) (mods : List ModMetadata)
    (h : createBakedGameModInfo digest fs dir b mods = .ok fs') (q : List String)
    (hpq : ¬ dir <+: q) (hqp : ¬ q <+: dir) :
    nodeLookup fs' q = nodeLookup fs q := by
  rw [createBakedGameModInfo] at h
  have hdiv := diverge_extend dir q "modinfo.lua" hpq hqp
  exact writeFileFs_frame fs fs' _ _ h q hdiv.1 hdiv.2

/-- The build pipeline only mutates the filesystem beneath the working
directory (and along its ancestor spine): any diverging path is untouched,
whether the build succeeds or fails. -/
theorem bakeBuild_frame (digest : List Char → String) (b : String)
    (mods : List ModMetadata) (ev : String) (dir : List String) (fs : FSNode)
    (q : List String) (hpq : ¬ dir <+: q) (hqp : ¬ q <+: dir) :
    nodeLookup (bakeBuild digest b mods ev dir fs).fs q = nodeLookup fs q := by
  cases hf : findBaseGame fs b ev with
  | error e => simp only [bakeBuild, hf]
  | ok basePath =>
    cases he : extractArchive fs basePath dir with
    | error e => simp only [bakeBuild, hf, he]
    | ok fs1 =>
      have h1 := extractArchive_frame fs fs1 basePath dir he q hpq hqp
      have h2 := overlayLoop_frame mods dir fs1 q hpq hqp
      cases ho : (overlayLoop dir fs1 mods).err with
      | some e =>
        simp only [bakeBuild, hf, he, ho]
        rw [h2, h1]
      | none =>
        cases hm : createBakedGameModInfo digest (overlayLoop dir fs1 mods).fs
            dir b mods with
        | error e =>
          simp only [bakeBuild, hf, he, ho, hm]
          rw [h2, h1]
        | ok fs2 =>
          simp only [bakeBuild, hf, he, ho, hm]
          rw [createBakedGameModInfo_frame digest _ fs2 dir b mods hm q hpq hqp,
            h2, h1]

/-! ### Cleanup lemmas -/

theorem cleanupBakedGame_rmOk_self (fs : FSNode) (p : List String) (hp : p ≠ []) :
    nodeLookup (cleanupBakedGame rmOk fs p) p = none := by
  rw [cleanupBakedGame]
  by_cases h : fileExists fs p = true
  · rw [if_pos h]
    exact rmTree_self p fs hp
  · rw [if_neg h]
    rw [fileExists] at h
    cases hn : nodeLookup fs p with
    | none => rfl
    | some v => rw [hn] at h; simp at h

theorem cleanupBakedGame_rmOk_frame (fs : FSNode) (p q : List String)
    (hpq : ¬ p <+: q) (hqp : ¬ q <+: p) :
    nodeLookup (cleanupBakedGame rmOk fs p) q = nodeLookup fs q := by
  rw [cleanupBakedGame]
  by_cases h : fileExists fs p = true
  · rw [if_pos h]
    exact rmTree_frame p fs q hpq hqp
  · rw [if_neg h]

/-! ### Remaining helper lemmas -/

theorem strDigest_inj : Function.Injective strDigest :=
  fun _ _ h => congrArg String.data h

theorem str_ne_append_sdd (s : String) : s ≠ s ++ ".sdd" := by
  intro h
  have h2 := congrArg String.data h
  rw [String.data_append] at h2
  have h3 := congrArg List.length h2
  simp at h3

/-- On a successful run, the overlay loop applies each mod once, in the
caller-supplied order. -/
theorem overlayLoop_trace : ∀ (mods : List ModMetadata) (dir : List String)
    (fs : FSNode), (overlayLoop dir fs mods).err = none →
    (overlayLoop dir fs mods).trace = mods.map (fun m => .overlaid m.name) := by
  intro mods
  induction mods with
  | nil => intro dir fs _; rfl
  | cons m rest ih =>
    intro dir fs h
    rw [overlayLoop] at h ⊢
    cases ha : applyModDelta fs m dir with
    | error e => simp only [ha] at h; simp at h
    | ok fs1 =>
      simp only [ha] at h ⊢
      rw [List.map_cons, ih dir fs1 h]

/-- With no removal faults, the sweep is exactly a filter. -/
theorem sweepLoop_noFail : ∀ (entries : List SweepEntry)
    (rmFails : String → Bool) (now maxAge : Int),
    (∀ s, rmFails s = false) →
    sweepLoop rmFails now maxAge entries =
      entries.filter (fun e => !(sweepEligible now maxAge e)) := by
  intro entries
  induction entries with
  | nil => intro rmFails now maxAge _; rfl
  | cons e rest ih =>
    intro rmFails now maxAge hrm
    rw [sweepLoop]
    by_cases he : sweepEligible now maxAge e = true
    · rw [if_pos he, if_neg (by rw [hrm e.name]; simp), ih rmFails now maxAge hrm,
        List.filter_cons]
      simp [he]
    · rw [if_neg he, ih rmFails now maxAge hrm, List.filter_cons]
      simp only [Bool.not_eq_true] at he
      simp [he]

/-- Spec-shaped description of one search-directory pass (used to state the
precedence equation of the resolver claim): among the entries of `d` (when it
is a directory) whose names match, the first valid one. -/
def searchHit (fs : FSNode) (gameType : String) (d : List String) :
    Option (List String) :=
  match nodeLookup fs d with
  | some (.dir es) =>
    (((namesOfE es).filter (fun file => nameMatches gameType file)).find?
      (fun c => isValidGameArchive fs (d ++ [c]))).map (fun c => d ++ [c])
  | _ => none

/-- Search roots are well-formed when none of them is a plain file (each is
absent or a directory) — true of any real installation; a file in place of a
search root would make `fs.readdir` throw. -/
def notFileAt (fs : FSNode) (d : List String) : Bool :=
  match nodeLookup fs d with
  | some (.file _) => false
  | _ => true

theorem searchGamesDir_eq (fs : FSNode) (gameType : String) (d : List String)
    (h : notFileAt fs d = true) :
    searchGamesDir fs gameType d = .ok (searchHit fs gameType d) := by
  rw [searchGamesDir, searchHit]
  cases hn : nodeLookup fs d with
  | none =>
    rw [if_neg (by rw [fileExists, hn]; simp)]
  | some v =>
    cases v with
    | file c => rw [notFileAt, hn] at h; simp at h
    | dir es =>
      rw [if_pos (by rw [fileExists, hn]; simp)]
      rw [readdirNames, hn]

theorem searchHit_sound (fs : FSNode) (gameType : String) (d : List String)
    (p : List String) (h : searchHit fs gameType d = some p) :
    ∃ files, readdirNames fs d = some files ∧ ∃ c ∈ files,
      p = d ++ [c] ∧ nameMatches gameType c = true ∧
      isValidGameArchive fs p = true := by
  rw [searchHit] at h
  cases hn : nodeLookup fs d with
  | none => rw [hn] at h; simp at h
  | some v =>
    cases v with
    | file c => rw [hn] at h; simp at h
    | dir es =>
      rw [hn] at h
      rw [Option.map_eq_some'] at h
      obtain ⟨c, hfind, hp⟩ := h
      have hmem := List.mem_of_find?_eq_some hfind
      have hvalid := List.find?_some hfind
      rw [List.mem_filter] at hmem
      exact ⟨namesOfE es, by rw [readdirNames, hn], c, hmem.1, hp.symm, hmem.2,
        by rw [hp] at hvalid; exact hvalid⟩

/-- Unfolding `bakeGameWith` on a cache miss whose build fails. -/
theorem bakeGameWith_miss_error (digest : List Char → String)
    (rm : FSNode → List String → Option String × FSNode)
    (options : DeltaBakingOptions) (fs : FSNode) (e : String)
    (hmiss : fileExists fs (bakedGamesDir ++
      ["baked-" ++ generateCombinationHash digest options.baseGameType
        options.mods options.engineVersion ++ ".sdd"]) = false)
    (hbuild : (bakeBuild digest options.baseGameType options.mods
      options.engineVersion (bakedGamesDir ++
        ["baked-" ++ generateCombinationHash digest options.baseGameType
          options.mods options.engineVersion]) fs).err = some e) :
    bakeGameWith digest rm options fs =
      ⟨.error e,
       cleanupBakedGame rm
         (bakeBuild digest options.baseGameType options.mods
           options.engineVersion (bakedGamesDir ++
             ["baked-" ++ generateCombinationHash digest options.baseGameType
               options.mods options.engineVersion]) fs).fs
         (bakedGamesDir ++
           ["baked-" ++ generateCombinationHash digest options.baseGameType
             options.mods options.engineVersion]),
       (bakeBuild digest options.baseGameType options.mods options.engineVersion
         (bakedGamesDir ++
           ["baked-" ++ generateCombinationHash digest options.baseGameType
             options.mods options.engineVersion]) fs).trace⟩ := by
  rw [bakeGameWith]
  simp only [hmiss, Bool.false_eq_true, if_false, hbuild]

/-- One step of the `findBaseGame` loop when the search root is well
formed. -/
theorem findBaseGameLoop_step (fs : FSNode) (gameType : String)
    (d : List String) (rest : List (List String))
    (h : notFileAt fs d = true) :
    findBaseGameLoop fs gameType (d :: rest) =
      match searchHit fs gameType d with
      | some p => .ok p
      | none => findBaseGameLoop fs gameType rest := by
  rw [findBaseGameLoop, searchGamesDir_eq fs gameType d h]
  cases searchHit fs gameType d <;> rfl

/-- A successful `findBaseGame` loop returns a hit of one of its roots. -/
theorem findBaseGameLoop_ok_sound : ∀ (ds : List (List String)) (fs : FSNode)
    (gameType : String) (p : List String),
    (∀ d ∈ ds, notFileAt fs d = true) →
    findBaseGameLoop fs gameType ds = .ok p →
    ∃ d ∈ ds, searchHit fs gameType d = some p := by
  intro ds
  induction ds with
  | nil =>
    intro fs ty p _ h
    rw [findBaseGameLoop] at h
    simp at h
  | cons d rest ih =>
    intro fs ty p hall h
    rw [findBaseGameLoop_step fs ty d rest (hall d (by simp))] at h
    cases hs : searchHit fs ty d with
    | some q =>
      rw [hs] at h
      simp at h
      exact ⟨d, by simp, by rw [hs, h]⟩
    | none =>
      rw [hs] at h
      simp at h
      obtain ⟨d2, hd2, hs2⟩ := ih fs ty p (fun x hx => hall x (by simp [hx])) h
      exact ⟨d2, by simp [hd2], hs2⟩

/-- A failing `findBaseGame` loop reports the not-found error naming the
requested type. -/
theorem findBaseGameLoop_error : ∀ (ds : List (List String)) (fs : FSNode)
    (gameType e : String),
    (∀ d ∈ ds, notFileAt fs d = true) →
    findBaseGameLoop fs gameType ds = .error e →
    e = "Base game not found for: " ++ gameType := by
  intro ds
  induction ds with
  | nil =>
    intro fs ty e _ h
    rw [findBaseGameLoop] at h
    simp at h
    exact h.symm
  | cons d rest ih =>
    intro fs ty e hall h
    rw [findBaseGameLoop_step fs ty d rest (hall d (by simp))] at h
    cases hs : searchHit fs ty d with
    | some q => rw [hs] at h; simp at h
    | none =>
      rw [hs] at h
      simp at h
      exact ih fs ty e (fun x hx => hall x (by simp [hx])) h

/-! ### Concrete instances used by witnesses and counterexamples -/

/-- Build an `FSEntries` value from a list. -/
def entriesOf : List (String × FSNode) → FSEntries
  | [] => .nil
  | (n, x) :: r => .cons n x (entriesOf r)

/-- A demonstration filesystem: a valid `byar.sdd` base in the writable games
root (base file `f = "base"`), and two overlay mods setting `f` to `"v1"` and
`"v2"`. -/
def demoFs : FSNode :=
  .dir (entriesOf [
    ("WRITE_DATA_PATH", .dir (entriesOf [
      ("games", .dir (entriesOf [
        ("byar.sdd", .dir (entriesOf [
          ("modinfo.lua", .file "base modinfo"),
          ("f", .file "base")]))]))])),
    ("mods", .dir (entriesOf [
      ("o1", .dir (entriesOf [("f", .file "v1")])),
      ("o2", .dir (entriesOf [("f", .file "v2")]))]))])

def demoMod1 : ModMetadata := ⟨"Overlay One", "o1", "1.0", "mods/o1"⟩
def demoMod2 : ModMetadata := ⟨"Overlay Two", "o2", "1.0", "mods/o2"⟩
def demoOptions : DeltaBakingOptions := ⟨"byar", [demoMod1, demoMod2], "ev1"⟩
def demoOptionsRev : DeltaBakingOptions := ⟨"byar", [demoMod2, demoMod1], "ev1"⟩

/-- Working directory of the `[demoMod1, demoMod2]` bake. -/
def demoDir12 : List String :=
  bakedGamesDir ++
    ["baked-" ++ generateCombinationHash strDigest "byar" [demoMod1, demoMod2] "ev1"]

/-- Working directory of the `[demoMod2, demoMod1]` bake. -/
def demoDir21 : List String :=
  bakedGamesDir ++
    ["baked-" ++ generateCombinationHash strDigest "byar" [demoMod2, demoMod1] "ev1"]

/-- The `.sdd` sibling checked by the cache-hit branch of the demo bake. -/
def demoArch12 : List String :=
  bakedGamesDir ++
    ["baked-" ++ generateCombinationHash strDigest "byar" [demoMod1, demoMod2] "ev1"
      ++ ".sdd"]

/-- A mod whose install path does not exist: overlay application fails. -/
def demoBadMod : ModMetadata := ⟨"Missing", "mx", "1", "mods/nope"⟩
def demoBadOptions : DeltaBakingOptions := ⟨"byar", [demoBadMod], "ev1"⟩

def demoBadDir : List String :=
  bakedGamesDir ++
    ["baked-" ++ generateCombinationHash strDigest "byar" [demoBadMod] "ev1"]

def demoBadArchive : List String :=
  bakedGamesDir ++
    ["baked-" ++ generateCombinationHash strDigest "byar" [demoBadMod] "ev1"
      ++ ".sdd"]

/-- Two mods equal in `(shortname, version)` but with different install
paths. -/
def cexModP1 : ModMetadata := ⟨"Overlay M", "m", "1", "p1"⟩
def cexModP2 : ModMetadata := ⟨"Overlay M", "m", "1", "p2"⟩

/-- A mod differing from `cexModP1` only in the display name (a field the
fingerprint does not serialize). -/
def cexModName : ModMetadata := ⟨"Other Name", "m", "1", "p1"⟩

/-- A removal model with no faults. -/
def rmNever (_ : String) : Bool := false

def demoSweepExact : SweepEntry := ⟨"baked-x", true, 90⟩
def demoSweepOld : SweepEntry := ⟨"baked-y", true, 80⟩
def demoSweepEntries : List SweepEntry := [demoSweepExact, demoSweepOld]

/-- A removal model where removing `baked-aaa` throws. -/
def sweepFailingRm (s : String) : Bool := s == "baked-aaa"

def sweepCexA : SweepEntry := ⟨"baked-aaa", true, 0⟩
def sweepCexB : SweepEntry := ⟨"baked-bbb", true, 0⟩

/-- A directory named without the `.sdd` extension containing the manifest
marker. -/
def valCexFs : FSNode :=
  .dir (.cons "plain" (.dir (.cons "modinfo.lua" (.file "marker") .nil)) .nil)

/-- Whether a path resolves to a directory. -/
def isDirAt (fs : FSNode) (p : List String) : Bool :=
  match nodeLookup fs p with
  | some (.dir _) => true
  | _ => false

/-- Source and destination for the overlay frame witness. -/
def ovSrcE : FSEntries := .cons "f" (.file "v1") .nil
def ovFs : FSNode :=
  .dir (.cons "src" (.dir ovSrcE)
    (.cons "dest" (.dir (.cons "keep" (.file "old") .nil)) .nil))
def ovFsAfter : FSNode :=
  .dir (.cons "src" (.dir ovSrcE)
    (.cons "dest" (.dir (.cons "keep" (.file "old")
      (.cons "f" (.file "v1") .nil))) .nil))

/-! ### Claim theorems -/

/-- C2 (counterexample): the fingerprint is *not* independent of overlay
paths.  `cexModP1` and `cexModP2` agree pointwise in `(shortname, version)`
and differ only in `installPath`, yet the canonical serializations — and
hence the keys, digests being collision-free — differ, because
`generateCombinationHash` serializes `installPath` (line 115 of the
source). -/
theorem C2_counterexample :
    cexModP1.shortname = cexModP2.shortname ∧
    cexModP1.version = cexModP2.version ∧
    cexModP1.installPath ≠ cexModP2.installPath ∧
    combinationContent "byar" [cexModP1] "ev" ≠
      combinationContent "byar" [cexModP2] "ev" ∧
    generateCombinationHash strDigest "byar" [cexModP1] "ev" ≠
      generateCombinationHash strDigest "byar" [cexModP2] "ev" := by
  refine ⟨rfl, rfl, by decide, by decide, ?_⟩
  intro h
  exact absurd (strDigest_inj h) (by decide)

/-- C2 (amended): the combination fingerprint depends on exactly the
`(shortname, version, installPath)` projections of the mods — two mod lists
receive the same key (for any injective digest) iff they agree pointwise in
all three serialized fields.  In particular moving an overlay's on-disk
location *does* change the cache key. -/
theorem C2_amended_path_dependence :
    ∀ (digest : List Char → String), Function.Injective digest →
    ∀ (baseGameType engineVersion : String) (l1 l2 : List ModMetadata),
    generateCombinationHash digest baseGameType l1 engineVersion =
      generateCombinationHash digest baseGameType l2 engineVersion ↔
    l1.map projMod = l2.map projMod := by
  intro digest hinj b ev l1 l2
  constructor
  · intro h
    exact (combinationContent_inj b b ev ev l1 l2 (hinj h)).2.2
  · intro h
    exact congrArg digest (combinationContent_congr b ev l1 l2 h)

/-- C2 (witness): two mods agreeing in the three serialized fields (differing
only in display name) receive the same key. -/
theorem C2_amended_witness :
    generateCombinationHash strDigest "byar" [cexModP1] "ev" =
      generateCombinationHash strDigest "byar" [cexModName] "ev" :=
  (C2_amended_path_dependence strDigest strDigest_inj "byar" "ev"
    [cexModP1] [cexModName]).mpr (by decide)

/-- C4 (counterexample): order sensitivity fails for distinct overlays that
agree in the serialized fields: `cexModP1 ≠ cexModName` (they differ in the
display name), yet swapping them leaves the canonical serialization — and
hence the key under any digest — unchanged. -/
theorem C4_counterexample :
    cexModP1 ≠ cexModName ∧
    combinationContent "b" [cexModP1, cexModName] "e" =
      combinationContent "b" [cexModName, cexModP1] "e" ∧
    generateCombinationHash strDigest "b" [cexModP1, cexModName] "e" =
      generateCombinationHash strDigest "b" [cexModName, cexModP1] "e" := by
  refine ⟨by decide, by decide, ?_⟩
  rw [generateCombinationHash, generateCombinationHash]
  exact congrArg strDigest (by decide)

/-- C4 (amended): the fingerprint is order-sensitive for overlays that differ
in a serialized field: whenever `A` and `B` differ in
`(shortname, version, installPath)`, the serializations of `[A, B]` and
`[B, A]` differ, so (digests being collision-free) the keys differ. -/
theorem C4_amended_order_sensitivity :
    ∀ (digest : List Char → String), Function.Injective digest →
    ∀ (baseGameType engineVersion : String) (A B : ModMetadata),
    projMod A ≠ projMod B →
    generateCombinationHash digest baseGameType [A, B] engineVersion ≠
      generateCombinationHash digest baseGameType [B, A] engineVersion := by
  intro digest hinj b ev A B hne h
  have h2 := (combinationContent_inj b b ev ev [A, B] [B, A] (hinj h)).2.2
  simp only [List.map_cons, List.map_nil, List.cons.injEq] at h2
  exact hne h2.1

/-- C4 (witness): swapping two overlays that differ in `installPath` changes
the key. -/
theorem C4_amended_witness :
    generateCombinationHash strDigest "b" [cexModP1, cexModP2] "e" ≠
      generateCombinationHash strDigest "b" [cexModP2, cexModP1] "e" :=
  C4_amended_order_sensitivity strDigest strDigest_inj "b" "e"
    cexModP1 cexModP2 (by decide)

/-- C7: with no removal faults, the sweep is exactly the filter dropping
`baked-`-prefixed directories strictly older than `maxAge`; an entry exactly
`maxAge` old survives; every eligible strictly-older entry is evicted; the
sweep is a no-op on an empty cache directory (and on a missing one). -/
theorem C7_eviction_boundary :
    ∀ (rmFails : String → Bool) (now maxAge : Int) (entries : List SweepEntry),
    (∀ s, rmFails s = false) →
    cleanupOldBakedGames rmFails now maxAge (some entries) =
      some (entries.filter (fun e => !(sweepEligible now maxAge e)))
    ∧ (∀ e ∈ entries, now - e.mtimeMs = maxAge →
        e ∈ entries.filter (fun e2 => !(sweepEligible now maxAge e2)))
    ∧ (∀ e ∈ entries, sweepEligible now maxAge e = true →
        e ∉ entries.filter (fun e2 => !(sweepEligible now maxAge e2)))
    ∧ cleanupOldBakedGames rmFails now maxAge (some []) = some []
    ∧ cleanupOldBakedGames rmFails now maxAge none = none := by
  intro rmFails now maxAge entries hrm
  refine ⟨?_, ?_, ?_, rfl, rfl⟩
  · rw [cleanupOldBakedGames, sweepLoop_noFail entries rmFails now maxAge hrm]
  · intro e he heq
    rw [List.mem_filter]
    refine ⟨he, ?_⟩
    have hel : sweepEligible now maxAge e = false := by
      rw [sweepEligible, heq]
      simp
    rw [hel]
    rfl
  · intro e he hel hmem
    rw [List.mem_filter] at hmem
    rw [hel] at hmem
    simp at hmem

/-- C7 (witness): with `now = 100`, `maxAge = 10`, an entry of age exactly 10
survives and an entry of age 20 is evicted. -/
theorem C7_witness :
    cleanupOldBakedGames rmNever 100 10 (some demoSweepEntries) =
      some (demoSweepEntries.filter (fun e2 => !(sweepEligible 100 10 e2))) ∧
    demoSweepExact ∈ demoSweepEntries.filter (fun e2 => !(sweepEligible 100 10 e2)) ∧
    demoSweepOld ∉ demoSweepEntries.filter (fun e2 => !(sweepEligible 100 10 e2)) :=
  ⟨(C7_eviction_boundary rmNever 100 10 demoSweepEntries (fun _ => rfl)).1,
   (C7_eviction_boundary rmNever 100 10 demoSweepEntries (fun _ => rfl)).2.1
     demoSweepExact (by decide) (by decide),
   (C7_eviction_boundary rmNever 100 10 demoSweepEntries (fun _ => rfl)).2.2.1
     demoSweepOld (by decide) (by decide)⟩

/-- C8 (counterexample): a failure removing one entry *does* abort the sweep
of the remaining entries.  `sweepCexB` is an eligible directory strictly
older than `maxAge` whose own removal would succeed, yet it survives because
removing `sweepCexA` (processed before it) threw and the `catch` wrapping the
whole loop ended the sweep. -/
theorem C8_counterexample :
    sweepEligible 100 10 sweepCexB = true ∧
    sweepFailingRm sweepCexB.name = false ∧
    cleanupOldBakedGames sweepFailingRm 100 10 (some [sweepCexA, sweepCexB]) =
      some [sweepCexA, sweepCexB] := by
  refine ⟨by decide, by decide, ?_⟩
  rfl

/-- C8 (amended): a failure while removing one cache entry never propagates
to the caller (the sweep returns a listing, it cannot throw), but it ends the
sweep: when the entry the loop reaches is eligible and its removal throws,
that entry and every entry after it — visited or not, old or not — are left
untouched. -/
theorem C8_amended_abort_on_failure :
    ∀ (rmFails : String → Bool) (now maxAge : Int) (e : SweepEntry)
      (rest : List SweepEntry),
    sweepEligible now maxAge e = true → rmFails e.name = true →
    cleanupOldBakedGames rmFails now maxAge (some (e :: rest)) =
      some (e :: rest) := by
  intro rmFails now maxAge e rest hel hrm
  rw [cleanupOldBakedGames, sweepLoop, if_pos hel, if_pos hrm]

/-- C8 (witness): the failing sweep at concrete inputs. -/
theorem C8_amended_witness :
    cleanupOldBakedGames sweepFailingRm 100 10 (some [sweepCexA, sweepCexB]) =
      some [sweepCexA, sweepCexB] :=
  C8_amended_abort_on_failure sweepFailingRm 100 10 sweepCexA [sweepCexB]
    (by decide) (by decide)

/-- C9 (counterexample): `isValidGameArchive` is *not* true for every
directory containing `modinfo.lua`: the directory `plain` contains the
marker but its path does not end in `.sdd`, and the check returns false. -/
theorem C9_counterexample :
    isDirAt valCexFs ["plain"] = true ∧
    fileExists valCexFs ["plain", "modinfo.lua"] = true ∧
    isValidGameArchive valCexFs ["plain"] = false := by
  decide

/-- C9 (amended): `isValidGameArchive` returns, for a directory whose path
ends in `.sdd`, exactly the presence of `modinfo.lua` (true with it, false
without); false for a directory whose path does not end in `.sdd`, even one
containing `modinfo.lua`; for a file, exactly whether its name ends in
`.sdz` or `.sd7`, without deeper inspection; and false — never an
exception — for a path that cannot be statted. -/
theorem C9_amended_validity :
    ∀ (fs : FSNode) (p : List String),
    (∀ es, nodeLookup fs p = some (.dir es) →
      jsEndsWith (p.getLastD "") ".sdd" = true →
      isValidGameArchive fs p = fileExists fs (p ++ ["modinfo.lua"]))
    ∧ (∀ es, nodeLookup fs p = some (.dir es) →
      jsEndsWith (p.getLastD "") ".sdd" = false →
      isValidGameArchive fs p = false)
    ∧ (∀ c, nodeLookup fs p = some (.file c) →
      isValidGameArchive fs p =
        (jsEndsWith (p.getLastD "") ".sdz" || jsEndsWith (p.getLastD "") ".sd7"))
    ∧ (nodeLookup fs p = none → isValidGameArchive fs p = false) := by
  intro fs p
  refine ⟨?_, ?_, ?_, ?_⟩
  · intro es hn hsdd
    rw [isValidGameArchive]
    simp only [hn, hsdd, if_true]
  · intro es hn hsdd
    rw [isValidGameArchive]
    simp only [hn, hsdd]
    rfl
  · intro c hn
    rw [isValidGameArchive]
    simp only [hn]
  · intro hn
    rw [isValidGameArchive]
    simp only [hn]

/-- C9 (witness): the non-`.sdd` directory from the counterexample filesystem
is rejected by the amended rule. -/
theorem C9_amended_witness :
    isValidGameArchive valCexFs ["plain"] = false :=
  (C9_amended_validity valCexFs ["plain"]).2.1
    (.cons "modinfo.lua" (.file "marker") .nil) rfl rfl

/-- Whether a bake outcome is a success. -/
def bakeSucceeded (o : BakeOutcome) : Bool :=
  match o.result with
  | .ok _ => true
  | .error _ => false

set_option maxRecDepth 10000 in
/-- C1 (bug demonstration): the cache-existence check of `bakeGame` tests
`baked-<hash>.sdd`, but construction materializes `baked-<hash>` (nothing
ever creates the `.sdd` path), so after a successful first bake the checked
path still does not exist and a second identical call takes the build
branch again, re-performing the base copy, the overlays and the manifest
write (non-empty trace) instead of the claimed cache hit. -/
theorem C1_second_bake_repeats_work :
    bakeSucceeded (bakeGame strDigest demoOptions demoFs) = true ∧
    (bakeGame strDigest demoOptions demoFs).trace ≠ [] ∧
    fileExists (bakeGame strDigest demoOptions demoFs).fs demoArch12 = false ∧
    (bakeGame strDigest demoOptions
      (bakeGame strDigest demoOptions demoFs).fs).trace ≠ [] ∧
    bakeSucceeded (bakeGame strDigest demoOptions
      (bakeGame strDigest demoOptions demoFs).fs) = true := by
  decide

set_option maxRecDepth 10000 in
/-- C3: overlay precedence is last-writer-wins in caller order.  First, on
any successful build the trace is exactly one base copy, then one overlay
application per mod in the caller-supplied list order, then one manifest
write.  Second, in the demonstration filesystem (base `f = "base"`,
overlay1 `f = "v1"`, overlay2 `f = "v2"`) baking `[overlay1, overlay2]`
yields `f = "v2"` and baking `[overlay2, overlay1]` yields `f = "v1"`. -/
theorem C3_overlay_precedence :
    (∀ (digest : List Char → String) (b ev : String) (mods : List ModMetadata)
      (dir : List String) (fs : FSNode),
      (bakeBuild digest b mods ev dir fs).err = none →
      (bakeBuild digest b mods ev dir fs).trace =
        .baseCopied :: mods.map (fun m => .overlaid m.name) ++ [.manifestWritten])
    ∧ readFile (bakeGame strDigest demoOptions demoFs).fs (demoDir12 ++ ["f"]) =
        some "v2"
    ∧ readFile (bakeGame strDigest demoOptionsRev demoFs).fs (demoDir21 ++ ["f"]) =
        some "v1" := by
  refine ⟨?_, by decide, by decide⟩
  intro digest b ev mods dir fs h
  cases hf : findBaseGame fs b ev with
  | error e => simp only [bakeBuild, hf] at h; simp at h
  | ok basePath =>
    cases he : extractArchive fs basePath dir with
    | error e => simp only [bakeBuild, hf, he] at h; simp at h
    | ok fs1 =>
      cases ho : (overlayLoop dir fs1 mods).err with
      | some e => simp only [bakeBuild, hf, he, ho] at h; simp at h
      | none =>
        cases hm : createBakedGameModInfo digest (overlayLoop dir fs1 mods).fs
            dir b mods with
        | error e => simp only [bakeBuild, hf, he, ho, hm] at h; simp at h
        | ok fs2 =>
          simp only [bakeBuild, hf, he, ho, hm]
          rw [overlayLoop_trace mods dir fs1 ho]

set_option maxRecDepth 10000 in
/-- C3 (witness): the general trace clause applied to the demonstration
bake. -/
theorem C3_witness :
    (bakeBuild strDigest "byar" [demoMod1, demoMod2] "ev1" demoDir12 demoFs).trace =
      .baseCopied :: [demoMod1, demoMod2].map (fun m => .overlaid m.name) ++
        [.manifestWritten] :=
  C3_overlay_precedence.1 strDigest "byar" "ev1" [demoMod1, demoMod2] demoDir12
    demoFs (by decide)

set_option maxRecDepth 10000 in
/-- C5: failure atomicity of `bakeGame`.  On a cache miss whose build
pipeline (base resolution through manifest write) fails with `e`:
(1) for *every* cleanup removal model — including ones that throw — the call
rejects with exactly `e` (the cleanup `try`/`catch` swallows its own failure
and never replaces the original error);
(2) under the default (successful) removal, the working directory for the
key is absent afterwards;
(3) and the path consulted by the cache lookup still does not exist, so a
subsequent lookup for that key misses. -/
theorem C5_failure_atomicity :
    ∀ (digest : List Char → String)
      (rm : FSNode → List String → Option String × FSNode)
      (options : DeltaBakingOptions) (fs : FSNode) (e : String),
    fileExists fs (bakedGamesDir ++
      ["baked-" ++ generateCombinationHash digest options.baseGameType
        options.mods options.engineVersion ++ ".sdd"]) = false →
    (bakeBuild digest options.baseGameType options.mods options.engineVersion
      (bakedGamesDir ++ ["baked-" ++ generateCombinationHash digest
        options.baseGameType options.mods options.engineVersion]) fs).err =
      some e →
    (bakeGameWith digest rm options fs).result = .error e ∧
    nodeLookup (bakeGame digest options fs).fs (bakedGamesDir ++
      ["baked-" ++ generateCombinationHash digest options.baseGameType
        options.mods options.engineVersion]) = none ∧
    fileExists (bakeGame digest options fs).fs (bakedGamesDir ++
      ["baked-" ++ generateCombinationHash digest options.baseGameType
        options.mods options.engineVersion ++ ".sdd"]) = false := by
  intro digest rm options fs e hmiss hbuild
  have hd := bakeGameWith_miss_error digest rm options fs e hmiss hbuild
  have hdOk := bakeGameWith_miss_error digest rmOk options fs e hmiss hbuild
  have hne : ("baked-" ++ generateCombinationHash digest options.baseGameType
      options.mods options.engineVersion) ≠
      ("baked-" ++ generateCombinationHash digest options.baseGameType
        options.mods options.engineVersion ++ ".sdd") :=
    str_ne_append_sdd ("baked-" ++ generateCombinationHash digest
      options.baseGameType options.mods options.engineVersion)
  have hdiv := diverge_snoc bakedGamesDir _ _ hne
  refine ⟨by rw [hd], ?_, ?_⟩
  · rw [show bakeGame digest options fs = bakeGameWith digest rmOk options fs
      from rfl, hdOk]
    exact cleanupBakedGame_rmOk_self _ _ (by simp [bakedGamesDir, writeDataPath])
  · rw [show bakeGame digest options fs = bakeGameWith digest rmOk options fs
      from rfl, hdOk]
    show fileExists (cleanupBakedGame rmOk _ _) _ = false
    rw [fileExists, cleanupBakedGame_rmOk_frame _ _ _ hdiv.1 hdiv.2,
      bakeBuild_frame digest options.baseGameType options.mods
        options.engineVersion _ fs _ hdiv.1 hdiv.2]
    rw [fileExists] at hmiss
    exact hmiss

/-- C5 (witness): baking with an overlay whose install path does not exist
fails at overlay application; the error propагates, the working directory is
absent, and the cache path is still missing. -/
theorem C5_witness :
    (bakeGameWith strDigest rmOk demoBadOptions demoFs).result =
      .error "ENOENT" ∧
    nodeLookup (bakeGame strDigest demoBadOptions demoFs).fs demoBadDir = none ∧
    fileExists (bakeGame strDigest demoBadOptions demoFs).fs demoBadArchive =
      false :=
  C5_failure_atomicity strDigest rmOk demoBadOptions demoFs "ENOENT"
    (by decide) (by decide)

set_option maxRecDepth 10000 in
/-- C6: base resolution.  Under well-formed search roots (each root absent
or a directory — a root that is a plain file would make `fs.readdir` throw):
(1) `findBaseGame` equals the fixed-precedence search — the writable data
root's games folder first, then the engine-version-scoped bundled folder,
then the generic bundled folder — taking within each root the first
name-matching candidate that passes `isValidGameArchive`;
(2) any returned path is a name-matching, valid entry of one of the roots;
(3) when no root yields a valid candidate the error names the missing base
type;
(4) and a bake whose base resolution fails rejects with that error and
leaves no cache entry (the working directory is absent and the cache-lookup
path untouched). -/
theorem C6_base_resolution :
    ∀ (fs : FSNode) (gameType engineVersion : String),
    (∀ d ∈ possiblePaths engineVersion, notFileAt fs d = true) →
    (findBaseGame fs gameType engineVersion =
      match searchHit fs gameType (writeDataPath ++ ["games"]) with
      | some p => .ok p
      | none =>
        match searchHit fs gameType
            (cwdPath ++ ["assets", "engine", engineVersion, "games"]) with
        | some p => .ok p
        | none =>
          match searchHit fs gameType (cwdPath ++ ["assets", "games"]) with
          | some p => .ok p
          | none => .error ("Base game not found for: " ++ gameType))
    ∧ (∀ p, findBaseGame fs gameType engineVersion = .ok p →
        ∃ d ∈ possiblePaths engineVersion, ∃ files,
          readdirNames fs d = some files ∧ ∃ c ∈ files,
            p = d ++ [c] ∧ nameMatches gameType c = true ∧
            isValidGameArchive fs p = true)
    ∧ (∀ e, findBaseGame fs gameType engineVersion = .error e →
        e = "Base game not found for: " ++ gameType)
    ∧ (∀ (digest : List Char → String) (mods : List ModMetadata) (e : String),
        findBaseGame fs gameType engineVersion = .error e →
        fileExists fs (bakedGamesDir ++
          ["baked-" ++ generateCombinationHash digest gameType mods
            engineVersion ++ ".sdd"]) = false →
        (bakeGame digest ⟨gameType, mods, engineVersion⟩ fs).result = .error e ∧
        nodeLookup (bakeGame digest ⟨gameType, mods, engineVersion⟩ fs).fs
          (bakedGamesDir ++ ["baked-" ++ generateCombinationHash digest
            gameType mods engineVersion]) = none) := by
  intro fs ty ev hroots
  have hr1 : notFileAt fs (writeDataPath ++ ["games"]) = true :=
    hroots _ (by simp [possiblePaths])
  have hr2 : notFileAt fs (cwdPath ++ ["assets", "engine", ev, "games"]) = true :=
    hroots _ (by simp [possiblePaths])
  have hr3 : notFileAt fs (cwdPath ++ ["assets", "games"]) = true :=
    hroots _ (by simp [possiblePaths])
  have heq : findBaseGame fs ty ev =
      match searchHit fs ty (writeDataPath ++ ["games"]) with
      | some p => .ok p
      | none =>
        match searchHit fs ty (cwdPath ++ ["assets", "engine", ev, "games"]) with
        | some p => .ok p
        | none =>
          match searchHit fs ty (cwdPath ++ ["assets", "games"]) with
          | some p => .ok p
          | none => .error ("Base game not found for: " ++ ty) := by
    rw [findBaseGame, possiblePaths, findBaseGameLoop_step fs ty _ _ hr1]
    cases searchHit fs ty (writeDataPath ++ ["games"]) with
    | some p => rfl
    | none =>
      rw [findBaseGameLoop_step fs ty _ _ hr2]
      cases searchHit fs ty (cwdPath ++ ["assets", "engine", ev, "games"]) with
      | some p => rfl
      | none =>
        rw [findBaseGameLoop_step fs ty _ _ hr3]
        cases searchHit fs ty (cwdPath ++ ["assets", "games"]) with
        | some p => rfl
        | none => rfl
  refine ⟨heq, ?_, ?_, ?_⟩
  · intro p hp
    rw [findBaseGame] at hp
    obtain ⟨d, hd, hs⟩ := findBaseGameLoop_ok_sound (possiblePaths ev) fs ty p
      hroots hp
    obtain ⟨files, hfiles, c, hc, hpc, hmatch, hvalid⟩ :=
      searchHit_sound fs ty d p hs
    exact ⟨d, hd, files, hfiles, c, hc, hpc, hmatch, hvalid⟩
  · intro e he
    rw [findBaseGame] at he
    exact findBaseGameLoop_error (possiblePaths ev) fs ty e hroots he
  · intro digest mods e herr hmiss
    have hb : bakeBuild digest ty mods ev (bakedGamesDir ++
        ["baked-" ++ generateCombinationHash digest ty mods ev]) fs =
        ⟨some e, fs, []⟩ := by
      rw [bakeBuild, herr]
    have hd := bakeGameWith_miss_error digest rmOk ⟨ty, mods, ev⟩ fs e hmiss
      (by rw [hb])
    constructor
    · rw [show bakeGame digest ⟨ty, mods, ev⟩ fs =
        bakeGameWith digest rmOk ⟨ty, mods, ev⟩ fs from rfl, hd]
    · rw [show bakeGame digest ⟨ty, mods, ev⟩ fs =
        bakeGameWith digest rmOk ⟨ty, mods, ev⟩ fs from rfl, hd]
      exact cleanupBakedGame_rmOk_self _ _ (by simp [bakedGamesDir, writeDataPath])

/-- C6 (witness): the demonstration filesystem resolves `byar` to the
`.sdd` base in the writable games root. -/
theorem C6_witness :
    findBaseGame demoFs "byar" "ev1" =
      match searchHit demoFs "byar" (writeDataPath ++ ["games"]) with
      | some p => .ok p
      | none =>
        match searchHit demoFs "byar"
            (cwdPath ++ ["assets", "engine", "ev1", "games"]) with
        | some p => .ok p
        | none =>
          match searchHit demoFs "byar" (cwdPath ++ ["assets", "games"]) with
          | some p => .ok p
          | none => .error ("Base game not found for: " ++ "byar") :=
  (C6_base_resolution demoFs "byar" "ev1" (by decide)).1

/-- C10: frame property of a successful `overlayDirectory`: nothing under
the destination is deleted or renamed — every relative path that does not
occur under the overlay source resolves to exactly the same node before and
after; only paths that exist in the overlay source are written.  (The
well-formedness hypothesis — distinct entry names — holds for every real
directory tree.) -/
theorem C10_overlay_frame :
    ∀ (fs fs' : FSNode) (srcDir destDir : List String) (ses : FSEntries)
      (rel : List String),
    overlayDirectory fs srcDir destDir = .ok fs' →
    nodeLookup fs srcDir = some (.dir ses) →
    wfE ses = true →
    nodeLookup (.dir ses) rel = none →
    nodeLookup fs' (destDir ++ rel) = nodeLookup fs (destDir ++ rel) := by
  intro fs fs' srcDir destDir ses rel h hsrc hwf hrel
  rw [overlayDirectory] at h
  simp only [hsrc] at h
  cases hd : nodeLookup fs destDir with
  | some w =>
    cases w with
    | dir des =>
      simp only [hd] at h
      cases ho : overlayE ses des with
      | error e => simp only [ho] at h; simp at h
      | ok des' =>
        simp only [ho] at h
        rw [nodeLookup_append destDir fs' rel, nodeLookup_append destDir fs rel,
          modifyAt_const_get destDir fs fs' (.dir des') true h, hd]
        exact overlayE_node_frame rel ses des des' ho hwf hrel
    | file c =>
      simp only [hd] at h
      cases ses with
      | nil => cases h; rfl
      | cons n x r => simp at h
  | none =>
    simp only [hd] at h
    cases ses with
    | nil => cases h; rfl
    | cons n x r => simp at h

/-- C10 (witness): overlaying `src` (one file `f`) onto `dest` leaves the
unrelated `dest/keep` untouched. -/
theorem C10_witness :
    nodeLookup ovFsAfter (["dest"] ++ ["keep"]) =
      nodeLookup ovFs (["dest"] ++ ["keep"]) :=
  C10_overlay_frame ovFs ovFsAfter ["src"] ["dest"] ovSrcE ["keep"]
    rfl rfl rfl rfl

end DeltaBaking
